import Mathlib

/-!
React-Interactive-Canvas: edit history and connection validation.

A shallow embedding of the state handled by the `DnDFlow` component
(`src/components/DndFLow.jsx`): the live graph (`nodes`, `edges`), the undo/redo
log (`history`, `historyIndex`), the two notification messages and the
connection indicator.  Every callback of the component is a function from
state to state; React state setters become record updates.
-/

namespace DnDFlow

/-! ## Data model -/

/-- Canvas coordinates of a node, as returned by the library's `project`. -/
structure Position where
  x : Int
  y : Int
deriving DecidableEq, Repr

/-- An entry of the block catalogue (`API_BLOCKS_DATA`, `../constant`). -/
structure BlockDef where
  id : String
  label : String
  type : String
deriving DecidableEq, Repr

/-- The `data` object of a node built in `onDrop`. -/
structure NodeData where
  label : String
  type : String
  nodeId : String
deriving DecidableEq, Repr

/-- A placed block, as built in `onDrop` (DndFLow.jsx:326-335). -/
structure Node where
  id : String
  type : String
  position : Position
  data : NodeData
deriving DecidableEq, Repr

/-- The `style` object of an edge built in `onConnect`. -/
structure EdgeStyle where
  stroke : String
  strokeWidth : Nat
deriving DecidableEq, Repr

/-- The `markerEnd` object of an edge built in `onConnect`. -/
structure EdgeMarker where
  type : String
  color : String
deriving DecidableEq, Repr

/-- The connection handed to `onConnect` by the canvas library
(`params`): two node ids and the two optional handle ids. -/
structure Connection where
  source : String
  target : String
  sourceHandle : Option String
  targetHandle : Option String
deriving DecidableEq, Repr

/-- An edge, as built in `onConnect` (DndFLow.jsx:249-256): the fields of the
connection spread into it, then `id`, `type`, `animated`, `style`, `markerEnd`. -/
structure Edge where
  source : String
  target : String
  sourceHandle : Option String
  targetHandle : Option String
  id : String
  type : String
  animated : Bool
  style : EdgeStyle
  markerEnd : EdgeMarker
deriving DecidableEq, Repr

/-- One entry of `history`: `{ nodes, edges }`. -/
structure Snapshot where
  nodes : List Node
  edges : List Edge
deriving DecidableEq, Repr

/-- The React state of `DnDFlow` (DndFLow.jsx:33-45).  `nodeIdRef` is the
counter behind `getId`; it starts at `null`, which `++` reads as `0`. -/
structure FlowState where
  nodes : List Node
  edges : List Edge
  blocksData : List BlockDef
  history : List Snapshot
  historyIndex : Nat
  errorMessage : String
  successMessage : String
  isConnecting : Bool
  connectionStatus : String
  nodeIdRef : Nat
deriving DecidableEq, Repr

/-- The data of a drop event that `onDrop` reads: whether the wrapper ref is
set, the dragged block type (`''` when absent), and the projected position. -/
structure DropEvent where
  wrapperReady : Bool
  type : String
  position : Position
deriving DecidableEq, Repr

/-- The state at mount (DndFLow.jsx:28-41), with the catalogue already loaded
into `blocksData`; `initialState []` is the state before the catalogue arrives. -/
def initialState (blocks : List BlockDef) : FlowState :=
  { nodes := []
    edges := []
    blocksData := blocks
    history := [{ nodes := [], edges := [] }]
    historyIndex := 0
    errorMessage := ""
    successMessage := ""
    isConnecting := false
    connectionStatus := ""
    nodeIdRef := 0 }

/-! ## History engine -/

/-- The function `saveToHistory` (DndFLow.jsx:77-102).  `JSON.parse(JSON.stringify(x))`
is the identity on the plain records modelled here, so `newState` holds the
arguments; `slice(0, historyIndex + 1)` is `take`, `push` appends, `shift`
drops the first entry. -/
def saveToHistory (s : FlowState) (newNodes : List Node) (newEdges : List Edge) : FlowState :=
  let newState : Snapshot := { nodes := newNodes, edges := newEdges }
  let newHistory := s.history.take (s.historyIndex + 1) ++ [newState]
  if newHistory.length > 50 then
    { s with history := newHistory.drop 1 }
  else
    { s with history := newHistory, historyIndex := s.historyIndex + 1 }

/-- The function `undo` (DndFLow.jsx:105-126).  A missing `history[newIndex]`
is the `throw` of the source, caught as `'Undo failed'`. -/
def undo (s : FlowState) : FlowState :=
  if s.historyIndex > 0 then
    let newIndex := s.historyIndex - 1
    match s.history[newIndex]? with
    | some prevState =>
      { s with nodes := prevState.nodes, edges := prevState.edges,
               historyIndex := newIndex, successMessage := "Undo successful" }
    | none => { s with errorMessage := "Undo failed" }
  else
    { s with errorMessage := "Nothing to undo" }

/-- The function `redo` (DndFLow.jsx:129-150).  The comparison
`historyIndex < history.length - 1` is on JavaScript numbers, hence on
integers here. -/
def redo (s : FlowState) : FlowState :=
  if (s.historyIndex : Int) < (s.history.length : Int) - 1 then
    let newIndex := s.historyIndex + 1
    match s.history[newIndex]? with
    | some nextState =>
      { s with nodes := nextState.nodes, edges := nextState.edges,
               historyIndex := newIndex, successMessage := "Redo successful" }
    | none => { s with errorMessage := "Redo failed" }
  else
    { s with errorMessage := "Nothing to redo" }

/-! ## Connection validation -/

/-- JavaScript truthiness of an optional handle id: `null` and `''` are falsy. -/
def handleFalsy (h : Option String) : Bool :=
  match h with
  | none => true
  | some v => v == ""

/-- The helper `connectionExists` of the canvas library (reactflow), used by
its `addEdge`: some edge has the same source and target, and each pair of
handles is equal or both falsy. -/
def connectionExists (edge : Edge) (edges : List Edge) : Bool :=
  edges.any fun el =>
    el.source == edge.source && el.target == edge.target &&
    (el.sourceHandle == edge.sourceHandle ||
      (handleFalsy el.sourceHandle && handleFalsy edge.sourceHandle)) &&
    (el.targetHandle == edge.targetHandle ||
      (handleFalsy el.targetHandle && handleFalsy edge.targetHandle))

/-- The function `addEdge` of the canvas library (reactflow), called at
DndFLow.jsx:258 with an edge that already has an `id`: the list is returned
unchanged when the source or the target is falsy (the library's error 006) or
when `connectionExists`; otherwise the edge is concatenated at the end. -/
def addEdge (edgeParams : Edge) (edges : List Edge) : List Edge :=
  if edgeParams.source == "" || edgeParams.target == "" then edges
  else if connectionExists edgeParams edges then edges
  else edges ++ [edgeParams]

/-- The edge built at DndFLow.jsx:249-256; `MarkerType.ArrowClosed` is the
library constant `'arrowclosed'`. -/
def newEdge (params : Connection) : Edge :=
  { source := params.source
    target := params.target
    sourceHandle := params.sourceHandle
    targetHandle := params.targetHandle
    id := "edge-" ++ params.source ++ "-" ++ params.target
    type := "smoothstep"
    animated := true
    style := { stroke := "#10b981", strokeWidth := 2 }
    markerEnd := { type := "arrowclosed", color := "#10b981" } }

/-- The callback `onConnect` (DndFLow.jsx:196-268). -/
def onConnect (s : FlowState) (params : Connection) : FlowState :=
  let s := { s with isConnecting := false, connectionStatus := "" }
  let sourceNode := s.nodes.find? fun node => node.id == params.source
  let targetNode := s.nodes.find? fun node => node.id == params.target
  match sourceNode, targetNode with
  | some sourceNode, some targetNode =>
    if sourceNode.data.type != "blockA" then
      { s with errorMessage := "Invalid connection: connections must start from Block A" }
    else if targetNode.data.type != "blockB" then
      { s with errorMessage := "Invalid connection: connections must end at Block B" }
    else
      let existingConnection := s.edges.find? fun edge =>
        edge.source == params.source && edge.target == params.target
      if existingConnection.isSome then
        { s with errorMessage := "Connection already exists between these blocks" }
      else
        let existingTargetConnection := s.edges.find? fun edge => edge.target == params.target
        if existingTargetConnection.isSome then
          { s with errorMessage := "Block B can only have one input connection" }
        else
          let newEdges := addEdge (newEdge params) s.edges
          let s := { s with edges := newEdges }
          let s := saveToHistory s s.nodes newEdges
          { s with successMessage := "Connection created successfully" }
  | _, _ =>
    { s with errorMessage := "Invalid connection: source or target node not found" }

/-! ## Drop and clear -/

/-- The function `getId` (DndFLow.jsx:45): the id and the advanced counter. -/
def getId (s : FlowState) : String × FlowState :=
  ("dndnode_" ++ toString s.nodeIdRef, { s with nodeIdRef := s.nodeIdRef + 1 })

/-- The callback `onDrop` (DndFLow.jsx:289-347). -/
def onDrop (s : FlowState) (event : DropEvent) : FlowState :=
  if !event.wrapperReady then
    { s with errorMessage := "Canvas not ready for drop operation" }
  else
    let type := event.type
    let blockData := s.blocksData.find? fun block => block.type == type
    if type == "" then
      { s with errorMessage := "Invalid drag operation: no block type specified" }
    else
      match blockData with
      | none => { s with errorMessage := "Invalid block type: " ++ type }
      | some blockData =>
        let position := event.position
        if position.x < 0 || position.y < 0 then
          { s with errorMessage := "Invalid drop position" }
        else
          let (nodeId, s) := getId s
          let newNode : Node :=
            { id := nodeId
              type := "customBlock"
              position := position
              data := { label := blockData.label, type := blockData.type, nodeId := nodeId } }
          let newNodes := s.nodes ++ [newNode]
          let s := { s with nodes := newNodes }
          let s := saveToHistory s newNodes s.edges
          { s with successMessage := blockData.label ++ " added to canvas" }

/-- The callback `clearCanvas` (DndFLow.jsx:418-428). -/
def clearCanvas (s : FlowState) : FlowState :=
  let s := { s with nodes := [], edges := [] }
  let s := saveToHistory s [] []
  { s with successMessage := "Canvas cleared" }

/-! ## Change handlers and their timers -/

/-- A node change event of the canvas library, by its `type` field.  The
`reset` kind is left out: only the library's own setters emit it and the
component does not use them. -/
inductive NodeChange where
  | position (id : String) (position : Position)
  | dimensions (id : String)
  | select (id : String) (selected : Bool)
  | remove (id : String)
  | add (item : Node)
deriving DecidableEq, Repr

/-- The `type` field of a node change. -/
def NodeChange.type : NodeChange → String
  | .position _ _ => "position"
  | .dimensions _ => "dimensions"
  | .select _ _ => "select"
  | .remove _ => "remove"
  | .add _ => "add"

/-- An edge change event of the canvas library, by its `type` field. -/
inductive EdgeChange where
  | select (id : String) (selected : Bool)
  | remove (id : String)
  | add (item : Edge)
deriving DecidableEq, Repr

/-- The `type` field of an edge change. -/
def EdgeChange.type : EdgeChange → String
  | .select _ _ => "select"
  | .remove _ => "remove"
  | .add _ => "add"

/-- The changes of one node inside the library's `applyNodeChanges`: they are
applied in order, `remove` drops the node at once, `position` replaces the
position, `select` and `dimensions` touch fields that are not modelled. -/
def applyToNode (item : Node) : List NodeChange → Option Node
  | [] => some item
  | .remove id :: rest => if id == item.id then none else applyToNode item rest
  | .position id position :: rest =>
    if id == item.id then applyToNode { item with position := position } rest
    else applyToNode item rest
  | _ :: rest => applyToNode item rest

/-- The library's `applyNodeChanges`, which `onNodesChange` of `useNodesState`
applies to the node list: added items come first, then every node that no
`remove` change names, with its changes applied. -/
def applyNodeChanges (changes : List NodeChange) (nodes : List Node) : List Node :=
  (changes.filterMap fun c => match c with
    | .add item => some item
    | _ => none)
  ++ nodes.filterMap fun item => applyToNode item changes

/-- The library's `applyEdgeChanges`, which `onEdgesChange` of `useEdgesState`
applies to the edge list: added items come first, then every edge that no
`remove` change names (`select` touches a field that is not modelled). -/
def applyEdgeChanges (changes : List EdgeChange) (edges : List Edge) : List Edge :=
  (changes.filterMap fun c => match c with
    | .add item => some item
    | _ => none)
  ++ edges.filter fun item => !(changes.any fun c => c == .remove item.id)

/-- A pending `setTimeout` of a change handler.  Its callback reads the live
graph when it fires and calls the `saveToHistory` of the render in which the
handler was created, so the timer holds the `history` and `historyIndex` that
closure captured. -/
structure Timer where
  id : Nat
  due : Nat
  history : List Snapshot
  historyIndex : Nat
deriving DecidableEq, Repr

/-- The component state together with the clock (in ms), the timer id
counter and the pending timers, kept in firing order. -/
structure TimedState where
  app : FlowState
  now : Nat
  nextTimerId : Nat
  timers : List Timer
deriving DecidableEq, Repr

/-- Insertion of a timer behind every pending timer that is due no later. -/
def insertByDue (t : Timer) : List Timer → List Timer
  | [] => [t]
  | u :: us => if t.due < u.due then t :: u :: us else u :: insertByDue t us

/-- The call `setTimeout(callback, delay)` of a change handler: the timer is
queued and its id returned. -/
def setTimeout (s : TimedState) (delay : Nat) : Nat × TimedState :=
  let t : Timer :=
    { id := s.nextTimerId, due := s.now + delay,
      history := s.app.history, historyIndex := s.app.historyIndex }
  (t.id, { s with nextTimerId := s.nextTimerId + 1, timers := insertByDue t s.timers })

/-- The call `clearTimeout(timeoutId)`: the timer is taken off the queue. -/
def clearTimeout (s : TimedState) (timeoutId : Nat) : TimedState :=
  { s with timers := s.timers.filter fun t => t.id != timeoutId }

/-- The body of `saveToHistory` (DndFLow.jsx:77-102) run from a closure that
captured `history` and `historyIndex`: the log is computed from the captured
values and the setters write the current state. -/
def saveToHistoryFrom (history : List Snapshot) (historyIndex : Nat) (s : FlowState)
    (newNodes : List Node) (newEdges : List Edge) : FlowState :=
  let newState : Snapshot := { nodes := newNodes, edges := newEdges }
  let newHistory := history.take (historyIndex + 1) ++ [newState]
  if newHistory.length > 50 then
    { s with history := newHistory.drop 1 }
  else
    { s with history := newHistory, historyIndex := historyIndex + 1 }

/-- The callback `handleNodesChange` (DndFLow.jsx:359-388).  The second
component is the value the callback returns: the function
`() => clearTimeout(timeoutId)`, given by the id it would clear, or nothing. -/
def handleNodesChange (s : TimedState) (changes : List NodeChange) : TimedState × Option Nat :=
  let s := { s with app := { s.app with nodes := applyNodeChanges changes s.app.nodes } }
  let hasSignificantChange := changes.any fun change =>
    change.type == "position" || change.type == "remove" || change.type == "add"
  if hasSignificantChange then
    let (timeoutId, s) := setTimeout s 300
    (s, some timeoutId)
  else
    (s, none)

/-- The callback `handleEdgesChange` (DndFLow.jsx:391-415), with the returned
cleanup function as in `handleNodesChange`. -/
def handleEdgesChange (s : TimedState) (changes : List EdgeChange) : TimedState × Option Nat :=
  let s := { s with app := { s.app with edges := applyEdgeChanges changes s.app.edges } }
  let hasSignificantChange := changes.any fun change =>
    change.type == "remove" || change.type == "add"
  if hasSignificantChange then
    let (timeoutId, s) := setTimeout s 100
    (s, some timeoutId)
  else
    (s, none)

/-- The library's `deleteElements` for a list of node ids: the edges connected
to a removed node are reported to `onEdgesChange` as `remove` changes, then the
nodes to `onNodesChange`; what the two handlers return is not used. -/
def deleteElements (s : TimedState) (nodeIds : List String) : TimedState :=
  let nodesToRemove := s.app.nodes.filter fun node => nodeIds.contains node.id
  let connectedEdges := s.app.edges.filter fun edge =>
    nodesToRemove.any fun node => node.id == edge.source || node.id == edge.target
  let s :=
    if connectedEdges.length > 0 then
      (handleEdgesChange s (connectedEdges.map fun edge => EdgeChange.remove edge.id)).1
    else s
  if nodesToRemove.length > 0 then
    (handleNodesChange s (nodesToRemove.map fun node => NodeChange.remove node.id)).1
  else s

/-- The function `handleDelete` of `CustomBlock` (CustomBlock.jsx:24-31) for the
block with this `data.nodeId`; the context-menu flag is not modelled. -/
def handleDelete (s : TimedState) (nodeId : String) : TimedState :=
  deleteElements s [nodeId]

/-- A timer fires: its callback (DndFLow.jsx:374-378, 401-405) reads the live
nodes and edges and calls the captured `saveToHistory`. -/
def fireTimer (s : TimedState) (t : Timer) : TimedState :=
  let currentNodes := s.app.nodes
  let currentEdges := s.app.edges
  { s with
    now := t.due
    timers := s.timers.filter fun u => u.id != t.id
    app := saveToHistoryFrom t.history t.historyIndex s.app currentNodes currentEdges }

/-- The timers that fire when `ms` milliseconds pass, in firing order. -/
def dueTimers (s : TimedState) (ms : Nat) : List Timer :=
  s.timers.takeWhile fun t => t.due ≤ s.now + ms

/-- The state after `ms` milliseconds pass without user input: every due timer
has fired. -/
def advance (s : TimedState) (ms : Nat) : TimedState :=
  { (dueTimers s ms).foldl fireTimer s with now := s.now + ms }

/-! ## Sequences of operations -/

/-- A run of `record` calls: `saveToHistory` applied to each state in turn. -/
def recordAll (s : FlowState) (states : List Snapshot) : FlowState :=
  states.foldl (fun st g => saveToHistory st g.nodes g.edges) s

/-- A `record` call as every call site makes it (DndFLow.jsx:338-339, 259-260,
420-422, 375-377): the graph `g` is the live graph when `saveToHistory`
records it. -/
def edit (s : FlowState) (g : Snapshot) : FlowState :=
  saveToHistory { s with nodes := g.nodes, edges := g.edges } g.nodes g.edges

/-- A run of edits: each state in turn becomes the live graph and is recorded. -/
def editAll (s : FlowState) (states : List Snapshot) : FlowState :=
  states.foldl edit s

/-- The snapshot made of the live graph of a state. -/
def live (s : FlowState) : Snapshot :=
  { nodes := s.nodes, edges := s.edges }

/-- The empty snapshot `{ nodes: [], edges: [] }` the log starts with. -/
def emptySnapshot : Snapshot :=
  { nodes := [], edges := [] }

/-- The log is in step with the live graph: `history[historyIndex]` is the
live graph. -/
def Synced (s : FlowState) : Prop :=
  s.history[s.historyIndex]? = some (live s)

/-- The operations of the history engine alone: `record` is `saveToHistory`. -/
inductive HistoryOp where
  | record (nodes : List Node) (edges : List Edge)
  | undo
  | redo
deriving DecidableEq, Repr

/-- One operation of the history engine. -/
def stepHistory (s : FlowState) : HistoryOp → FlowState
  | .record nodes edges => saveToHistory s nodes edges
  | .undo => undo s
  | .redo => redo s

/-- A sequence of operations of the history engine, first to last. -/
def runHistory (s : FlowState) (ops : List HistoryOp) : FlowState :=
  ops.foldl stepHistory s

/-- The user operations of the editor: drop a block, attempt a connection,
clear the canvas, undo, redo. -/
inductive Action where
  | drop (event : DropEvent)
  | connect (params : Connection)
  | clear
  | undo
  | redo
deriving DecidableEq, Repr

/-- One user operation. -/
def step (s : FlowState) : Action → FlowState
  | .drop event => onDrop s event
  | .connect params => onConnect s params
  | .clear => clearCanvas s
  | .undo => undo s
  | .redo => redo s

/-- A sequence of user operations, first to last. -/
def run (s : FlowState) (actions : List Action) : FlowState :=
  actions.foldl step s

/-- A user operation on the timed state; it schedules no timer. -/
def act (s : TimedState) (a : Action) : TimedState :=
  { s with app := step s.app a }

/-! ## Vocabulary of the claims -/

/-- What every rejecting branch of `onConnect` leaves behind: the connecting
indicator is reset and the error message is set; nothing else changes. -/
def rejected (s : FlowState) (msg : String) : FlowState :=
  { s with isConnecting := false, connectionStatus := "", errorMessage := msg }

/-- What the accepting branch of `onConnect` leaves behind when the canvas
library appends the edge: the new edge list is stored, recorded, and the
success message is set. -/
def accepted (s : FlowState) (params : Connection) : FlowState :=
  { saveToHistory
      { s with isConnecting := false, connectionStatus := "",
               edges := s.edges ++ [newEdge params] }
      s.nodes (s.edges ++ [newEdge params])
    with successMessage := "Connection created successfully" }

/-- The node an id resolves to: the first node with that id (`nodes.find`). -/
def resolve (nodes : List Node) (id : String) : Option Node :=
  nodes.find? fun node => node.id == id

/-- The cursor is inside a log of at most fifty entries. -/
def LogInv (s : FlowState) : Prop :=
  s.historyIndex < s.history.length ∧ s.history.length ≤ 50

/-- The node `onDrop` builds (`newNode`, DndFLow.jsx:326-335) from the counter
value `k`, the catalogue entry and the drop position. -/
def droppedNode (k : Nat) (blockData : BlockDef) (position : Position) : Node :=
  { id := "dndnode_" ++ toString k
    type := "customBlock"
    position := position
    data := { label := blockData.label, type := blockData.type,
              nodeId := "dndnode_" ++ toString k } }

/-- What the successful branch of `onDrop` leaves behind: the counter is
advanced, the node is added, the graph is recorded, the success message set. -/
def dropped (s : FlowState) (blockData : BlockDef) (position : Position) : FlowState :=
  { saveToHistory
      { s with nodeIdRef := s.nodeIdRef + 1,
               nodes := s.nodes ++ [droppedNode s.nodeIdRef blockData position] }
      (s.nodes ++ [droppedNode s.nodeIdRef blockData position]) s.edges
    with successMessage := blockData.label ++ " added to canvas" }

/-- What the passing branch of `onConnect` leaves behind, in terms of the
library's `addEdge`. -/
def connected (s : FlowState) (params : Connection) : FlowState :=
  { saveToHistory
      { s with isConnecting := false, connectionStatus := "",
               edges := addEdge (newEdge params) s.edges }
      s.nodes (addEdge (newEdge params) s.edges)
    with successMessage := "Connection created successfully" }

/-- The steady-state invariant of the editor: the cursor is inside a log of at
most fifty entries and the entry under it is the live graph. -/
def AppInv (s : FlowState) : Prop :=
  LogInv s ∧ Synced s

/-- No fan-in: no two edges of the list have the same target. -/
def NoFanIn (edges : List Edge) : Prop :=
  edges.Pairwise fun e₁ e₂ => e₁.target ≠ e₂.target

/-- No fan-in anywhere: in the live graph and in every stored snapshot. -/
def FanInv (s : FlowState) : Prop :=
  NoFanIn s.edges ∧ ∀ snap ∈ s.history, NoFanIn snap.edges

/-- Every node id is non-empty, in the live graph and in every stored snapshot. -/
def IdInv (s : FlowState) : Prop :=
  (∀ n ∈ s.nodes, n.id ≠ "") ∧ ∀ snap ∈ s.history, ∀ n ∈ snap.nodes, n.id ≠ ""

/-- All five validation rules of `onConnect` pass: both ids resolve, the
source is a `blockA`, the target a `blockB`, no edge joins the two and no edge
ends at the target. -/
def Passes (s : FlowState) (params : Connection) : Prop :=
  (∃ a, resolve s.nodes params.source = some a ∧ a.data.type = "blockA") ∧
  (∃ b, resolve s.nodes params.target = some b ∧ b.data.type = "blockB") ∧
  (∀ e ∈ s.edges, ¬ (e.source = params.source ∧ e.target = params.target)) ∧
  (∀ e ∈ s.edges, e.target ≠ params.target)

/-- The five messages with which `onConnect` rejects, in rule order. -/
def rejectionMessages : List String :=
  [ "Invalid connection: source or target node not found",
    "Invalid connection: connections must start from Block A",
    "Invalid connection: connections must end at Block B",
    "Connection already exists between these blocks",
    "Block B can only have one input connection" ]

/-- Edge typing of one graph: every edge starts at an id that resolves to a
`blockA` node of the graph and ends at an id that resolves to a `blockB` node. -/
def TypedEdges (nodes : List Node) (edges : List Edge) : Prop :=
  ∀ e ∈ edges,
    (∃ a, resolve nodes e.source = some a ∧ a.data.type = "blockA") ∧
    (∃ b, resolve nodes e.target = some b ∧ b.data.type = "blockB")

/-- Edge typing everywhere: in the live graph and in every stored snapshot. -/
def TypedInv (s : FlowState) : Prop :=
  TypedEdges s.nodes s.edges ∧ ∀ snap ∈ s.history, TypedEdges snap.nodes snap.edges

/-! ## Concrete inputs -/

/-- A block of type `ty` as `onDrop` builds it from counter value `k`. -/
def sampleNode (k : Nat) (ty : String) : Node :=
  { id := "dndnode_" ++ toString k
    type := "customBlock"
    position := { x := 0, y := 0 }
    data := { label := ty, type := ty, nodeId := "dndnode_" ++ toString k } }

/-- Fifty recorded states: the `k`-th has the single block `dndnode_k`. -/
def fiftyStates : List Snapshot :=
  (List.range 50).map fun k => { nodes := [sampleNode k "blockA"], edges := [] }


/-- A canvas with one `blockA` (`dndnode_0`) and two `blockB` (`dndnode_1`,
`dndnode_2`), no edge, and an untouched log. -/
def sampleCanvas : FlowState :=
  { initialState [] with
    nodes := [sampleNode 0 "blockA", sampleNode 1 "blockB", sampleNode 2 "blockB"]
    history := [{ nodes := [sampleNode 0 "blockA", sampleNode 1 "blockB",
                            sampleNode 2 "blockB"], edges := [] }]
    nodeIdRef := 3 }

/-- The connection from `dndnode_a` to `dndnode_b` through the handles of
`CustomBlock`. -/
def sampleConnection (a b : Nat) : Connection :=
  { source := "dndnode_" ++ toString a
    target := "dndnode_" ++ toString b
    sourceHandle := some "source"
    targetHandle := some "target" }

/-- Three recorded states used to build a log with a redo branch. -/
def threeStates : List Snapshot :=
  (List.range 3).map fun k => { nodes := [sampleNode k "blockA"], edges := [] }

/-- The log after three `record` calls and two `undo` calls: four entries,
cursor on the second. -/
def afterTwoUndos : FlowState :=
  undo (undo (recordAll (initialState []) threeStates))

/-- The log after forty-nine `record` calls: fifty entries, cursor on the last. -/
def fullLog : FlowState :=
  recordAll (initialState []) (fiftyStates.take 49)

/-- A catalogue with the two block types of the editor. -/
def sampleBlocks : List BlockDef :=
  [ { id := "1", label := "Block A", type := "blockA" },
    { id := "2", label := "Block B", type := "blockB" } ]

/-- The drop of a block of type `ty` at the origin. -/
def sampleDrop (ty : String) : DropEvent :=
  { wrapperReady := true, type := ty, position := { x := 0, y := 0 } }

/-- The canvas after dropping a `blockA` (`dndnode_0`) and a `blockB`
(`dndnode_1`) and connecting them, with no timer pending. -/
def connectedPair : TimedState :=
  { app := run (initialState sampleBlocks)
      [Action.drop (sampleDrop "blockA"), Action.drop (sampleDrop "blockB"),
       Action.connect (sampleConnection 0 1)]
    now := 0
    nextTimerId := 0
    timers := [] }

/-! ## Basic facts about `saveToHistory` -/

theorem saveToHistory_nodes (s : FlowState) (n : List Node) (e : List Edge) :
    (saveToHistory s n e).nodes = s.nodes := by
  unfold saveToHistory; simp only []; split <;> rfl

theorem saveToHistory_edges (s : FlowState) (n : List Node) (e : List Edge) :
    (saveToHistory s n e).edges = s.edges := by
  unfold saveToHistory; simp only []; split <;> rfl

theorem saveToHistory_nodeIdRef (s : FlowState) (n : List Node) (e : List Edge) :
    (saveToHistory s n e).nodeIdRef = s.nodeIdRef := by
  unfold saveToHistory; simp only []; split <;> rfl

theorem saveToHistory_blocksData (s : FlowState) (n : List Node) (e : List Edge) :
    (saveToHistory s n e).blocksData = s.blocksData := by
  unfold saveToHistory; simp only []; split <;> rfl

/-- Below capacity `saveToHistory` truncates after the cursor, appends and
advances the cursor. -/
theorem saveToHistory_below (s : FlowState) (n : List Node) (e : List Edge)
    (hi : s.historyIndex < s.history.length) (hc : s.historyIndex + 2 ≤ 50) :
    (saveToHistory s n e).history
      = s.history.take (s.historyIndex + 1) ++ [(⟨n, e⟩ : Snapshot)] ∧
    (saveToHistory s n e).historyIndex = s.historyIndex + 1 := by
  unfold saveToHistory
  have hlen : (s.history.take (s.historyIndex + 1) ++ [(⟨n, e⟩ : Snapshot)]).length
      = s.historyIndex + 2 := by
    simp [List.length_take]; omega
  simp only []
  rw [if_neg (by rw [hlen]; omega)]
  exact ⟨rfl, rfl⟩

/-- At capacity (cursor on the fiftieth entry) `saveToHistory` appends, drops
the oldest entry and leaves the cursor where it is. -/
theorem saveToHistory_full (s : FlowState) (n : List Node) (e : List Edge)
    (hi : s.historyIndex < s.history.length) (hc : 49 ≤ s.historyIndex) :
    (saveToHistory s n e).history
      = (s.history.take (s.historyIndex + 1) ++ [(⟨n, e⟩ : Snapshot)]).drop 1 ∧
    (saveToHistory s n e).historyIndex = s.historyIndex := by
  unfold saveToHistory
  have hlen : (s.history.take (s.historyIndex + 1) ++ [(⟨n, e⟩ : Snapshot)]).length
      = s.historyIndex + 2 := by
    simp [List.length_take]; omega
  simp only []
  rw [if_pos (by rw [hlen]; omega)]
  exact ⟨rfl, rfl⟩

/-- After `saveToHistory` the cursor is on the last entry, which is the
recorded state, and the log has between one and fifty entries. -/
theorem saveToHistory_spec (s : FlowState) (n : List Node) (e : List Edge)
    (hi : s.historyIndex < s.history.length) (hl : s.history.length ≤ 50) :
    (saveToHistory s n e).historyIndex + 1 = (saveToHistory s n e).history.length ∧
    (saveToHistory s n e).history.length ≤ 50 ∧
    2 ≤ (saveToHistory s n e).history.length ∧
    (saveToHistory s n e).history[(saveToHistory s n e).historyIndex]? = some ⟨n, e⟩ := by
  by_cases hc : s.historyIndex + 2 ≤ 50
  · obtain ⟨h1, h2⟩ := saveToHistory_below s n e hi hc
    rw [h1, h2]
    have hlen : (s.history.take (s.historyIndex + 1)).length = s.historyIndex + 1 := by
      simp [List.length_take]; omega
    refine ⟨by simp [hlen], by simp [hlen]; omega, by simp [hlen], ?_⟩
    rw [List.getElem?_append_right (by omega)]
    simp [hlen]
  · obtain ⟨h1, h2⟩ := saveToHistory_full s n e hi (by omega)
    rw [h1, h2]
    have hlen : (s.history.take (s.historyIndex + 1)).length = s.historyIndex + 1 := by
      simp [List.length_take]; omega
    have hidx : s.historyIndex = 49 := by omega
    refine ⟨by simp [hlen], by simp [hlen]; omega, by simp [hlen]; omega, ?_⟩
    rw [List.getElem?_drop, List.getElem?_append_right (by omega)]
    have h0 : 1 + s.historyIndex - (s.history.take (s.historyIndex + 1)).length = 0 := by
      omega
    rw [h0]; rfl

/-! ## Basic facts about `undo` and `redo` -/

theorem undo_history (s : FlowState) : (undo s).history = s.history := by
  unfold undo; split
  · simp only []; split <;> rfl
  · rfl

theorem redo_history (s : FlowState) : (redo s).history = s.history := by
  unfold redo; split
  · simp only []; split <;> rfl
  · rfl

theorem undo_blocksData (s : FlowState) : (undo s).blocksData = s.blocksData := by
  unfold undo; split
  · simp only []; split <;> rfl
  · rfl

theorem redo_blocksData (s : FlowState) : (redo s).blocksData = s.blocksData := by
  unfold redo; split
  · simp only []; split <;> rfl
  · rfl

/-- With the cursor at zero `undo` only reports that there is nothing to undo. -/
theorem undo_zero (s : FlowState) (h : s.historyIndex = 0) :
    undo s = { s with errorMessage := "Nothing to undo" } := by
  unfold undo; rw [if_neg (by omega)]

/-- With the cursor past zero and inside the log `undo` moves one entry back
and loads that entry. -/
theorem undo_pos (s : FlowState) (h0 : 0 < s.historyIndex)
    (hi : s.historyIndex < s.history.length) :
    ∃ prev, s.history[s.historyIndex - 1]? = some prev ∧
      undo s = { s with nodes := prev.nodes, edges := prev.edges,
                        historyIndex := s.historyIndex - 1,
                        successMessage := "Undo successful" } := by
  have hlt : s.historyIndex - 1 < s.history.length := by omega
  refine ⟨s.history[s.historyIndex - 1], List.getElem?_eq_getElem hlt, ?_⟩
  unfold undo; rw [if_pos h0]
  simp only [List.getElem?_eq_getElem hlt]

/-- With the cursor on the last entry (or beyond) `redo` only reports that
there is nothing to redo. -/
theorem redo_last (s : FlowState) (h : s.history.length ≤ s.historyIndex + 1) :
    redo s = { s with errorMessage := "Nothing to redo" } := by
  unfold redo; rw [if_neg (by omega)]

/-- With the cursor before the last entry `redo` moves one entry forward and
loads that entry. -/
theorem redo_pos (s : FlowState) (hi : s.historyIndex + 1 < s.history.length) :
    ∃ next, s.history[s.historyIndex + 1]? = some next ∧
      redo s = { s with nodes := next.nodes, edges := next.edges,
                        historyIndex := s.historyIndex + 1,
                        successMessage := "Redo successful" } := by
  refine ⟨s.history[s.historyIndex + 1], List.getElem?_eq_getElem hi, ?_⟩
  unfold redo; rw [if_pos (by omega)]
  simp only [List.getElem?_eq_getElem hi]

/-- The effect of `k` successive `undo` calls from a cursor inside the log:
the log is kept, the cursor goes `k` entries back (stopping at zero), and the
live graph is the entry under the cursor as soon as one call took effect. -/
theorem undo_iterate (k : Nat) (s : FlowState) (hi : s.historyIndex < s.history.length) :
    (undo^[k] s).history = s.history ∧
    (undo^[k] s).historyIndex = s.historyIndex - k ∧
    (0 < k → 0 < s.historyIndex → Synced (undo^[k] s)) ∧
    ((k = 0 ∨ s.historyIndex = 0) → live (undo^[k] s) = live s) := by
  induction k with
  | zero => simp
  | succ k ih =>
    obtain ⟨ih1, ih2, ih3, ih4⟩ := ih
    rw [Function.iterate_succ_apply']
    by_cases hz : (undo^[k] s).historyIndex = 0
    · rw [undo_zero _ hz]
      refine ⟨ih1, by simp only []; omega, ?_, ?_⟩
      · intro _ hpos
        have hk : 0 < k := by omega
        exact ih3 hk hpos
      · intro h
        have h0 : s.historyIndex = 0 := by omega
        exact ih4 (Or.inr h0)
    · obtain ⟨prev, hp, hu⟩ := undo_pos (undo^[k] s) (by omega) (by rw [ih1]; omega)
      rw [hu]
      refine ⟨ih1, by simp only []; omega, ?_, ?_⟩
      · intro _ _
        simpa [Synced, live] using hp
      · intro h
        omega

/-- The effect of `k` successive `redo` calls from a cursor inside the log:
the log is kept, the cursor goes `k` entries forward (stopping at the last),
and the live graph is the entry under the cursor as soon as one call took
effect. -/
theorem redo_iterate (k : Nat) (s : FlowState) (hi : s.historyIndex < s.history.length) :
    (redo^[k] s).history = s.history ∧
    (redo^[k] s).historyIndex = min (s.historyIndex + k) (s.history.length - 1) ∧
    (0 < k → s.historyIndex + 1 < s.history.length → Synced (redo^[k] s)) ∧
    ((k = 0 ∨ s.historyIndex + 1 = s.history.length) → live (redo^[k] s) = live s) := by
  induction k with
  | zero => simp; omega
  | succ k ih =>
    obtain ⟨ih1, ih2, ih3, ih4⟩ := ih
    rw [Function.iterate_succ_apply']
    by_cases hz : (redo^[k] s).history.length ≤ (redo^[k] s).historyIndex + 1
    · rw [redo_last _ hz]
      rw [ih1] at hz
      refine ⟨ih1, by simp only []; omega, ?_, ?_⟩
      · intro _ hpos
        have hk : 0 < k := by omega
        exact ih3 hk hpos
      · intro h
        have h0 : s.historyIndex + 1 = s.history.length := by omega
        exact ih4 (Or.inr h0)
    · obtain ⟨next, hp, hu⟩ := redo_pos (redo^[k] s) (by omega)
      rw [hu]
      rw [ih1] at hz
      refine ⟨ih1, by simp only []; omega, ?_, ?_⟩
      · intro _ _
        simpa [Synced, live] using hp
      · intro h
        omega

/-! ## Runs of `record` calls -/

theorem recordAll_cons (s : FlowState) (g : Snapshot) (rest : List Snapshot) :
    recordAll s (g :: rest) = recordAll (saveToHistory s g.nodes g.edges) rest := rfl

/-- While the log stays within capacity, a run of `record` calls from a
cursor on the last entry appends the recorded states in order. -/
theorem recordAll_below (states : List Snapshot) (s : FlowState)
    (hi : s.historyIndex + 1 = s.history.length)
    (hc : s.history.length + states.length ≤ 50) :
    (recordAll s states).history = s.history ++ states ∧
    (recordAll s states).historyIndex = s.historyIndex + states.length ∧
    live (recordAll s states) = live s := by
  induction states generalizing s with
  | nil => simp [recordAll]
  | cons g rest ih =>
    simp only [List.length_cons] at hc
    obtain ⟨h1, h2⟩ := saveToHistory_below s g.nodes g.edges (by omega) (by omega)
    have htake : s.history.take (s.historyIndex + 1) = s.history := by
      rw [hi]; exact List.take_length _
    rw [htake] at h1
    have hlen : (saveToHistory s g.nodes g.edges).history.length = s.history.length + 1 := by
      rw [h1]; simp
    obtain ⟨r1, r2, r3⟩ := ih (saveToHistory s g.nodes g.edges)
      (by rw [h2, hlen]; omega) (by rw [hlen]; omega)
    rw [recordAll_cons]
    refine ⟨by rw [r1, h1]; simp, by rw [r2, h2]; simp only [List.length_cons]; omega, ?_⟩
    rw [r3]
    simp [live, saveToHistory_nodes, saveToHistory_edges]

/-- After any run of `record` calls the cursor is inside a log of at most
fifty entries and the live graph is untouched; after a non-empty run the
cursor is on the last entry, which is the last recorded state. -/
theorem recordAll_spec (states : List Snapshot) (s : FlowState)
    (hi : s.historyIndex < s.history.length) (hl : s.history.length ≤ 50) :
    (recordAll s states).historyIndex < (recordAll s states).history.length ∧
    (recordAll s states).history.length ≤ 50 ∧
    live (recordAll s states) = live s ∧
    (∀ g, states.getLast? = some g →
      (recordAll s states).historyIndex + 1 = (recordAll s states).history.length ∧
      2 ≤ (recordAll s states).history.length ∧
      (recordAll s states).history[(recordAll s states).historyIndex]? = some g) := by
  induction states generalizing s with
  | nil => simp [recordAll, hi, hl]
  | cons g rest ih =>
    obtain ⟨h1, h2, h3, h4⟩ := saveToHistory_spec s g.nodes g.edges hi hl
    obtain ⟨r1, r2, r3, r4⟩ := ih (saveToHistory s g.nodes g.edges) (by omega) h2
    rw [recordAll_cons]
    refine ⟨r1, r2, ?_, ?_⟩
    · rw [r3]; simp [live, saveToHistory_nodes, saveToHistory_edges]
    · intro g' hg'
      cases rest with
      | nil =>
        simp only [List.getLast?_singleton, Option.some.injEq] at hg'
        subst hg'
        exact ⟨h1, h3, h4⟩
      | cons g2 rest2 =>
        rw [List.getLast?_cons_cons] at hg'
        exact r4 g' hg'

/-! ## C1: the undo/redo round trip -/

/-- Bare `saveToHistory` calls, which leave the live graph as it is: after
`N ≤ 49` of them `N` calls of `undo` load the initial empty snapshot, and for
every `N`, `N` calls of `undo` followed by `N` calls of `redo` load the last
recorded state. -/
theorem recordAll_undo_redo (blocks : List BlockDef) (states : List Snapshot) :
    (states.length ≤ 49 →
      live (undo^[states.length] (recordAll (initialState blocks) states)) = emptySnapshot) ∧
    live (redo^[states.length] (undo^[states.length] (recordAll (initialState blocks) states)))
      = states.getLast?.getD emptySnapshot := by
  constructor
  · intro hN
    obtain ⟨h1, h2, h3⟩ := recordAll_below states (initialState blocks) rfl
      (by simp [initialState]; omega)
    have hlen : (recordAll (initialState blocks) states).history.length
        = states.length + 1 := by
      rw [h1]; simp [initialState]
    have hidx : (recordAll (initialState blocks) states).historyIndex = states.length := by
      rw [h2]; simp [initialState]
    obtain ⟨u1, u2, u3, u4⟩ := undo_iterate states.length
      (recordAll (initialState blocks) states) (by omega)
    by_cases hz : states.length = 0
    · rw [u4 (Or.inl hz), h3]; rfl
    · have hs := u3 (by omega) (by omega)
      unfold Synced at hs
      rw [u2, u1, h1, hidx, Nat.sub_self] at hs
      simp [initialState] at hs
      exact hs.symm
  · obtain ⟨h1, h2, h3, h4⟩ := recordAll_spec states (initialState blocks)
      (by simp [initialState]) (by simp [initialState])
    cases hg : states.getLast? with
    | none =>
      have hnil : states = [] := List.getLast?_eq_none_iff.mp hg
      subst hnil
      rfl
    | some g =>
      obtain ⟨g1, g2, g3⟩ := h4 g hg
      have hpos : 0 < states.length := by
        cases states with
        | nil => simp at hg
        | cons a l => simp
      obtain ⟨u1, u2, -, -⟩ := undo_iterate states.length
        (recordAll (initialState blocks) states) h1
      obtain ⟨r1, r2, r3, -⟩ := redo_iterate states.length
        (undo^[states.length] (recordAll (initialState blocks) states))
        (by rw [u1, u2]; omega)
      have hs := r3 hpos (by rw [u1, u2]; omega)
      unfold Synced at hs
      rw [r2, r1, u1, u2] at hs
      have hmin : min ((recordAll (initialState blocks) states).historyIndex - states.length
            + states.length) ((recordAll (initialState blocks) states).history.length - 1)
          = (recordAll (initialState blocks) states).historyIndex := by
        omega
      rw [hmin, g3] at hs
      simp only [Option.getD_some]
      exact (Option.some.inj hs).symm

set_option maxRecDepth 1000000 in
/-- C1 as stated fails at `N = 50`: after fifty `record` calls the initial
empty snapshot has been evicted, and fifty `undo` calls stop at the first
recorded state, whose node list is not empty. -/
theorem roundtrip_fails_at_fifty :
    fiftyStates.length ≤ 50 ∧
    (undo^[fiftyStates.length] (recordAll (initialState []) fiftyStates)).nodes
      = [sampleNode 0 "blockA"] ∧
    live (undo^[fiftyStates.length] (recordAll (initialState []) fiftyStates))
      ≠ emptySnapshot ∧
    (undo^[fiftyStates.length] (editAll (initialState []) fiftyStates)).nodes
      = [sampleNode 0 "blockA"] ∧
    live (undo^[fiftyStates.length] (editAll (initialState []) fiftyStates))
      ≠ emptySnapshot := by
  decide

/-! ## C1: the round trip over edits -/

theorem editAll_cons (s : FlowState) (g : Snapshot) (rest : List Snapshot) :
    editAll s (g :: rest) = editAll (edit s g) rest := rfl

/-- After an edit the cursor is on the last entry of a log of two to fifty
entries, that entry is the edited graph, and so is the live graph. -/
theorem edit_spec (s : FlowState) (g : Snapshot)
    (hi : s.historyIndex < s.history.length) (hl : s.history.length ≤ 50) :
    (edit s g).historyIndex + 1 = (edit s g).history.length ∧
    (edit s g).history.length ≤ 50 ∧
    2 ≤ (edit s g).history.length ∧
    (edit s g).history[(edit s g).historyIndex]? = some g ∧
    live (edit s g) = g := by
  obtain ⟨h1, h2, h3, h4⟩ :=
    saveToHistory_spec { s with nodes := g.nodes, edges := g.edges } g.nodes g.edges hi hl
  refine ⟨h1, h2, h3, h4, ?_⟩
  unfold edit live
  rw [saveToHistory_nodes, saveToHistory_edges]

/-- Below capacity an edit from a cursor on the last entry appends the graph. -/
theorem edit_below (s : FlowState) (g : Snapshot)
    (hi : s.historyIndex + 1 = s.history.length) (hc : s.history.length + 1 ≤ 50) :
    (edit s g).history = s.history ++ [g] ∧
    (edit s g).historyIndex = s.historyIndex + 1 := by
  obtain ⟨h1, h2⟩ :=
    saveToHistory_below { s with nodes := g.nodes, edges := g.edges } g.nodes g.edges
      (by show s.historyIndex < s.history.length; omega)
      (by show s.historyIndex + 2 ≤ 50; omega)
  have htake : s.history.take (s.historyIndex + 1) = s.history := by
    rw [hi]; exact List.take_length _
  refine ⟨?_, h2⟩
  show (saveToHistory { s with nodes := g.nodes, edges := g.edges } g.nodes g.edges).history = _
  rw [h1]
  show s.history.take (s.historyIndex + 1) ++ [g] = _
  rw [htake]

/-- While the log stays within capacity, a run of edits from a cursor on the
last entry appends the edited graphs in order. -/
theorem editAll_below (states : List Snapshot) (s : FlowState)
    (hi : s.historyIndex + 1 = s.history.length)
    (hc : s.history.length + states.length ≤ 50) :
    (editAll s states).history = s.history ++ states ∧
    (editAll s states).historyIndex = s.historyIndex + states.length := by
  induction states generalizing s with
  | nil => simp [editAll]
  | cons g rest ih =>
    simp only [List.length_cons] at hc
    obtain ⟨h1, h2⟩ := edit_below s g hi (by omega)
    have hlen : (edit s g).history.length = s.history.length + 1 := by rw [h1]; simp
    obtain ⟨r1, r2⟩ := ih (edit s g) (by rw [h2, hlen]; omega) (by rw [hlen]; omega)
    rw [editAll_cons]
    exact ⟨by rw [r1, h1]; simp, by rw [r2, h2]; simp only [List.length_cons]; omega⟩

/-- After any run of edits from a state in step with its log, the cursor is
inside a log of at most fifty entries and the entry under it is the live
graph; after a non-empty run the cursor is on the last entry and the live
graph is the last edited graph. -/
theorem editAll_spec (states : List Snapshot) (s : FlowState) (h : AppInv s) :
    AppInv (editAll s states) ∧
    live (editAll s states) = states.getLast?.getD (live s) ∧
    (states ≠ [] →
      (editAll s states).historyIndex + 1 = (editAll s states).history.length ∧
      2 ≤ (editAll s states).history.length) := by
  induction states generalizing s with
  | nil => exact ⟨h, rfl, fun hne => absurd rfl hne⟩
  | cons g rest ih =>
    obtain ⟨h1, h2, h3, h4, h5⟩ := edit_spec s g h.1.1 h.1.2
    have hinv : AppInv (edit s g) := ⟨⟨by omega, h2⟩, by unfold Synced; rw [h4, h5]⟩
    obtain ⟨r1, r2, r3⟩ := ih (edit s g) hinv
    rw [editAll_cons]
    refine ⟨r1, ?_, ?_⟩
    · rw [r2, h5]
      cases rest with
      | nil => rfl
      | cons g2 rest2 =>
        rw [List.getLast?_cons_cons]
        cases hg : (g2 :: rest2).getLast? with
        | none => exact absurd (List.getLast?_eq_none_iff.mp hg) (by simp)
        | some g3 => rfl
    · intro _
      cases rest with
      | nil => exact ⟨h1, h3⟩
      | cons g2 rest2 => exact r3 (by simp)


/-- C1 (amended): from the initial state, let `N` record calls be made, each
recording the graph that is live at the call (as every call site does); the
live graph is then the last recorded state.  For `N ≤ 49`, `k ≤ N` calls of
`undo` leave the live graph equal to the state recorded `k` calls earlier
(entry `N - k` of the initial empty snapshot followed by the recorded states),
so `N` calls bring back the initial empty snapshot, and `j ≤ k` calls of `redo`
after them move forward again to entry `N - k + j`.  For every `N` (so also
for `N = 50`), `N` calls of `undo` followed by `N` calls of `redo` leave the
live graph equal to the state passed to the last record call. -/
theorem record_undo_redo_roundtrip (blocks : List BlockDef) (states : List Snapshot) :
    live (editAll (initialState blocks) states) = states.getLast?.getD emptySnapshot ∧
    (states.length ≤ 49 →
      (∀ k, k ≤ states.length →
        (emptySnapshot :: states)[states.length - k]?
          = some (live (undo^[k] (editAll (initialState blocks) states))) ∧
        ∀ j, j ≤ k →
          (emptySnapshot :: states)[states.length - k + j]?
            = some (live (redo^[j] (undo^[k] (editAll (initialState blocks) states))))) ∧
      live (undo^[states.length] (editAll (initialState blocks) states)) = emptySnapshot) ∧
    live (redo^[states.length] (undo^[states.length] (editAll (initialState blocks) states)))
      = states.getLast?.getD emptySnapshot := by
  obtain ⟨hinv, hlive, hne⟩ :=
    editAll_spec states (initialState blocks)
      ⟨⟨by simp [initialState], by simp [initialState]⟩, rfl⟩
  have hlive' : live (editAll (initialState blocks) states)
      = states.getLast?.getD emptySnapshot := hlive
  obtain ⟨⟨hi, hl⟩, hsync⟩ := hinv
  refine ⟨hlive', ?_, ?_⟩
  · intro hN
    obtain ⟨h1, h2⟩ := editAll_below states (initialState blocks) rfl
      (by simp [initialState]; omega)
    have hhist : (editAll (initialState blocks) states).history = emptySnapshot :: states := by
      rw [h1]; rfl
    have hidx : (editAll (initialState blocks) states).historyIndex = states.length := by
      rw [h2]; simp [initialState]
    have hlen : (editAll (initialState blocks) states).history.length
        = states.length + 1 := by
      rw [hhist]; simp
    have key : ∀ k, k ≤ states.length →
        (emptySnapshot :: states)[states.length - k]?
          = some (live (undo^[k] (editAll (initialState blocks) states))) ∧
        ∀ j, j ≤ k →
          (emptySnapshot :: states)[states.length - k + j]?
            = some (live (redo^[j] (undo^[k] (editAll (initialState blocks) states)))) := by
      intro k hk
      obtain ⟨u1, u2, u3, -⟩ := undo_iterate k (editAll (initialState blocks) states) hi
      have hsu : Synced (undo^[k] (editAll (initialState blocks) states)) := by
        by_cases hk0 : k = 0
        · subst hk0; exact hsync
        · exact u3 (by omega) (by omega)
      have hu : (emptySnapshot :: states)[states.length - k]?
          = some (live (undo^[k] (editAll (initialState blocks) states))) := by
        unfold Synced at hsu
        rw [u1, u2, hhist, hidx] at hsu
        exact hsu
      refine ⟨hu, ?_⟩
      intro j hj
      obtain ⟨r1, r2, r3, -⟩ := redo_iterate j (undo^[k] (editAll (initialState blocks) states))
        (by rw [u1, u2]; omega)
      have hsr : Synced (redo^[j] (undo^[k] (editAll (initialState blocks) states))) := by
        by_cases hj0 : j = 0
        · subst hj0; exact hsu
        · exact r3 (by omega) (by rw [u1, u2]; omega)
      unfold Synced at hsr
      rw [r2, r1, u1, u2, hhist, hidx] at hsr
      have hmin : min (states.length - k + j) ((emptySnapshot :: states).length - 1)
          = states.length - k + j := by
        simp only [List.length_cons]; omega
      rw [hmin] at hsr
      exact hsr
    refine ⟨key, ?_⟩
    have h0 := (key states.length (le_refl _)).1
    rw [Nat.sub_self] at h0
    simp only [List.getElem?_cons_zero, Option.some.injEq] at h0
    exact h0.symm
  · cases states with
    | nil => rfl
    | cons g rest =>
      obtain ⟨g1, g2⟩ := hne (by simp)
      have hpos : 0 < (g :: rest).length := by simp
      obtain ⟨u1, u2, -, -⟩ := undo_iterate (g :: rest).length
        (editAll (initialState blocks) (g :: rest)) hi
      obtain ⟨r1, r2, r3, -⟩ := redo_iterate (g :: rest).length
        (undo^[(g :: rest).length] (editAll (initialState blocks) (g :: rest)))
        (by rw [u1, u2]; omega)
      have hs := r3 hpos (by rw [u1, u2]; omega)
      unfold Synced at hs hsync
      rw [r2, r1, u1, u2] at hs
      have hmin : min ((editAll (initialState blocks) (g :: rest)).historyIndex
            - (g :: rest).length + (g :: rest).length)
            ((editAll (initialState blocks) (g :: rest)).history.length - 1)
          = (editAll (initialState blocks) (g :: rest)).historyIndex := by
        omega
      rw [hmin, hsync] at hs
      rw [← Option.some.inj hs]
      exact hlive'

set_option maxRecDepth 1000000 in
/-- C1 at a concrete run: three recorded states, each with a block on the
canvas.  The live graph is not empty before the undos, one `undo` goes back
to the second state, and three bring back the empty snapshot. -/
theorem record_undo_redo_roundtrip_witness :
    threeStates.length ≤ 49 ∧
    live (editAll (initialState []) threeStates) ≠ emptySnapshot ∧
    (1 ≤ threeStates.length ∧
      (emptySnapshot :: threeStates)[threeStates.length - 1]?
        = some (live (undo^[1] (editAll (initialState []) threeStates)))) ∧
    live (undo^[threeStates.length] (editAll (initialState []) threeStates)) = emptySnapshot :=
  ⟨by decide, by decide,
    ⟨by decide,
      (((record_undo_redo_roundtrip [] threeStates).2.1 (by decide)).1 1 (by decide)).1⟩,
    ((record_undo_redo_roundtrip [] threeStates).2.1 (by decide)).2⟩

/-! ## The branches of `onConnect` -/

/-- On an edge list that passes rule 4 the library's `connectionExists` is
false: it asks for an edge with the same source and target. -/
theorem connectionExists_false (params : Connection) (edges : List Edge)
    (h : ∀ e ∈ edges, ¬ (e.source = params.source ∧ e.target = params.target)) :
    connectionExists (newEdge params) edges = false := by
  rw [Bool.eq_false_iff]
  intro hc
  unfold connectionExists at hc
  rw [List.any_eq_true] at hc
  obtain ⟨e, he, hp⟩ := hc
  simp only [Bool.and_eq_true, beq_iff_eq] at hp
  exact h e he ⟨hp.1.1.1, hp.1.1.2⟩

/-- For non-empty endpoints that pass rule 4, `addEdge` appends the new edge. -/
theorem addEdge_append (params : Connection) (edges : List Edge)
    (hs : params.source ≠ "") (ht : params.target ≠ "")
    (h : ∀ e ∈ edges, ¬ (e.source = params.source ∧ e.target = params.target)) :
    addEdge (newEdge params) edges = edges ++ [newEdge params] := by
  unfold addEdge
  rw [connectionExists_false params edges h]
  simp [newEdge, hs, ht]

/-- Rule 1: an id that resolves to no node. -/
theorem onConnect_notFound (s : FlowState) (params : Connection)
    (h : resolve s.nodes params.source = none ∨ resolve s.nodes params.target = none) :
    onConnect s params
      = rejected s "Invalid connection: source or target node not found" := by
  unfold resolve at h
  unfold onConnect rejected
  simp only []
  split
  · rename_i a b ha hb
    rcases h with h | h
    · rw [h] at ha; cases ha
    · rw [h] at hb; cases hb
  · rfl

/-- Rule 2: the source node is not a `blockA`. -/
theorem onConnect_wrongSource (s : FlowState) (params : Connection) (a b : Node)
    (ha : resolve s.nodes params.source = some a) (hb : resolve s.nodes params.target = some b)
    (hty : a.data.type ≠ "blockA") :
    onConnect s params
      = rejected s "Invalid connection: connections must start from Block A" := by
  unfold resolve at ha hb
  unfold onConnect rejected
  simp only [ha, hb]
  simp [hty]

/-- Rule 3: the source is a `blockA`, the target node is not a `blockB`. -/
theorem onConnect_wrongTarget (s : FlowState) (params : Connection) (a b : Node)
    (ha : resolve s.nodes params.source = some a) (hb : resolve s.nodes params.target = some b)
    (hta : a.data.type = "blockA") (htb : b.data.type ≠ "blockB") :
    onConnect s params
      = rejected s "Invalid connection: connections must end at Block B" := by
  unfold resolve at ha hb
  unfold onConnect rejected
  simp only [ha, hb]
  simp [hta, htb]

/-- Rule 4: the types are right and an edge already joins source and target. -/
theorem onConnect_duplicate (s : FlowState) (params : Connection) (a b : Node)
    (ha : resolve s.nodes params.source = some a) (hb : resolve s.nodes params.target = some b)
    (hta : a.data.type = "blockA") (htb : b.data.type = "blockB")
    (hdup : ∃ e ∈ s.edges, e.source = params.source ∧ e.target = params.target) :
    onConnect s params
      = rejected s "Connection already exists between these blocks" := by
  unfold resolve at ha hb
  have hsome : (s.edges.find? fun edge =>
      edge.source == params.source && edge.target == params.target).isSome = true := by
    rw [List.find?_isSome]
    obtain ⟨e, he, h1, h2⟩ := hdup
    exact ⟨e, he, by simp [h1, h2]⟩
  unfold onConnect rejected
  simp only [ha, hb]
  simp [hta, htb, hsome]

/-- Rule 5: the types are right, no edge joins source and target, and some
edge already ends at the target. -/
theorem onConnect_targetTaken (s : FlowState) (params : Connection) (a b : Node)
    (ha : resolve s.nodes params.source = some a) (hb : resolve s.nodes params.target = some b)
    (hta : a.data.type = "blockA") (htb : b.data.type = "blockB")
    (hdup : ¬ ∃ e ∈ s.edges, e.source = params.source ∧ e.target = params.target)
    (htgt : ∃ e ∈ s.edges, e.target = params.target) :
    onConnect s params
      = rejected s "Block B can only have one input connection" := by
  unfold resolve at ha hb
  have hnone : (s.edges.find? fun edge =>
      edge.source == params.source && edge.target == params.target).isSome = false := by
    rw [Bool.eq_false_iff]
    intro hc
    rw [List.find?_isSome] at hc
    obtain ⟨e, he, hp⟩ := hc
    simp only [Bool.and_eq_true, beq_iff_eq] at hp
    exact hdup ⟨e, he, hp⟩
  have hsome : (s.edges.find? fun edge => edge.target == params.target).isSome = true := by
    rw [List.find?_isSome]
    obtain ⟨e, he, h1⟩ := htgt
    exact ⟨e, he, by simp [h1]⟩
  unfold onConnect rejected
  simp only [ha, hb]
  simp [hta, htb, hnone, hsome]

/-- Rule 6, whatever the library does with the edge: the new list is
`addEdge` of the built edge, stored and recorded. -/
theorem onConnect_pass (s : FlowState) (params : Connection) (a b : Node)
    (ha : resolve s.nodes params.source = some a) (hb : resolve s.nodes params.target = some b)
    (hta : a.data.type = "blockA") (htb : b.data.type = "blockB")
    (htgt : ¬ ∃ e ∈ s.edges, e.target = params.target) :
    onConnect s params = connected s params := by
  unfold resolve at ha hb
  have hnone : (s.edges.find? fun edge =>
      edge.source == params.source && edge.target == params.target).isSome = false := by
    rw [Bool.eq_false_iff]
    intro hc
    rw [List.find?_isSome] at hc
    obtain ⟨e, he, hp⟩ := hc
    simp only [Bool.and_eq_true, beq_iff_eq] at hp
    exact htgt ⟨e, he, hp.2⟩
  have hnone2 : (s.edges.find? fun edge => edge.target == params.target).isSome = false := by
    rw [Bool.eq_false_iff]
    intro hc
    rw [List.find?_isSome] at hc
    obtain ⟨e, he, hp⟩ := hc
    simp only [beq_iff_eq] at hp
    exact htgt ⟨e, he, hp⟩
  unfold onConnect connected
  simp only [ha, hb]
  simp [hta, htb, hnone, hnone2]

/-! ## C2: the connection validator decides by the first matching rule -/

/-- C2: `onConnect` decides by the first matching rule.  (1) An id that
resolves to no node: 'node not found'.  With both ids resolved to `a` and `b`:
(2) `a` not a `blockA`: 'must start from Block A'; (3) else `b` not a `blockB`:
'must end at Block B'; (4) else an edge with this source and target exists:
'already exists'; (5) else an edge with this target exists: 'only one input
connection'; (6) otherwise the connection is accepted: the edge with id
`edge-<source>-<target>` is handed to the library's `addEdge`, the result is
stored and recorded, and for non-empty ids (all ids made by `getId` are) that
result is the old edge list with the new edge appended.  Every rejection
changes only the message and the connecting indicator.  In particular a
`blockB` source with a `blockA` target is rejected by rule 2 whatever the
edges are. -/
theorem onConnect_first_match (s : FlowState) (params : Connection) :
    ((resolve s.nodes params.source = none ∨ resolve s.nodes params.target = none) →
      onConnect s params
        = rejected s "Invalid connection: source or target node not found") ∧
    (∀ a b, resolve s.nodes params.source = some a → resolve s.nodes params.target = some b →
      (a.data.type ≠ "blockA" →
        onConnect s params
          = rejected s "Invalid connection: connections must start from Block A") ∧
      (a.data.type = "blockA" → b.data.type ≠ "blockB" →
        onConnect s params
          = rejected s "Invalid connection: connections must end at Block B") ∧
      (a.data.type = "blockA" → b.data.type = "blockB" →
        (∃ e ∈ s.edges, e.source = params.source ∧ e.target = params.target) →
        onConnect s params
          = rejected s "Connection already exists between these blocks") ∧
      (a.data.type = "blockA" → b.data.type = "blockB" →
        (¬ ∃ e ∈ s.edges, e.source = params.source ∧ e.target = params.target) →
        (∃ e ∈ s.edges, e.target = params.target) →
        onConnect s params
          = rejected s "Block B can only have one input connection") ∧
      (a.data.type = "blockA" → b.data.type = "blockB" →
        (¬ ∃ e ∈ s.edges, e.target = params.target) →
        (onConnect s params).edges = addEdge (newEdge params) s.edges ∧
        (onConnect s params).successMessage = "Connection created successfully" ∧
        (onConnect s params).errorMessage = s.errorMessage ∧
        (newEdge params).id = "edge-" ++ params.source ++ "-" ++ params.target ∧
        (params.source ≠ "" → params.target ≠ "" →
          onConnect s params = accepted s params ∧
          (onConnect s params).edges = s.edges ++ [newEdge params])) ∧
      (a.data.type = "blockB" → b.data.type = "blockA" →
        onConnect s params
          = rejected s "Invalid connection: connections must start from Block A")) := by
  refine ⟨onConnect_notFound s params, ?_⟩
  intro a b ha hb
  refine ⟨onConnect_wrongSource s params a b ha hb,
    onConnect_wrongTarget s params a b ha hb,
    onConnect_duplicate s params a b ha hb,
    onConnect_targetTaken s params a b ha hb, ?_, ?_⟩
  · intro hta htb htgt
    have hp := onConnect_pass s params a b ha hb hta htb htgt
    have hdup : ∀ e ∈ s.edges, ¬ (e.source = params.source ∧ e.target = params.target) :=
      fun e he h => htgt ⟨e, he, h.2⟩
    refine ⟨by rw [hp]; simp [connected, saveToHistory_edges], by rw [hp]; rfl,
      by rw [hp]; unfold connected saveToHistory; simp only []; split <;> rfl, rfl, ?_⟩
    intro hs ht
    have hacc : onConnect s params = accepted s params := by
      rw [hp]; unfold connected; rw [addEdge_append params s.edges hs ht hdup]; rfl
    refine ⟨hacc, ?_⟩
    rw [hacc]; simp [accepted, saveToHistory_edges]
  · intro hta _
    exact onConnect_wrongSource s params a b ha hb (by rw [hta]; decide)

/-- C2 at a concrete canvas: `dndnode_0` (a `blockA`) to `dndnode_1` (a
`blockB`) with no edge yet is accepted and the edge is appended. -/
theorem onConnect_first_match_witness :
    (onConnect sampleCanvas (sampleConnection 0 1)).edges
      = sampleCanvas.edges ++ [newEdge (sampleConnection 0 1)] :=
  ((((onConnect_first_match sampleCanvas (sampleConnection 0 1)).2
      (sampleNode 0 "blockA") (sampleNode 1 "blockB") (by decide) (by decide)).2.2.2.2.1
      (by decide) (by decide) (by decide)).2.2.2.2 (by decide) (by decide)).2

/-! ## C3, C4, C5: truncation, capacity and eviction -/

/-- C3: branch discard.  On a log within capacity whose cursor `c` is before
the last index, `saveToHistory` yields exactly the first `c + 1` old
snapshots, in order, followed by the new one, with the cursor at `c + 1`: the
log has `c + 2` entries, so every old snapshot after position `c` is gone. -/
theorem saveToHistory_discards_branch (s : FlowState) (nodes : List Node) (edges : List Edge)
    (hl : s.history.length ≤ 50) (hc : s.historyIndex + 1 < s.history.length) :
    (saveToHistory s nodes edges).history
      = s.history.take (s.historyIndex + 1) ++ [(⟨nodes, edges⟩ : Snapshot)] ∧
    (saveToHistory s nodes edges).historyIndex = s.historyIndex + 1 ∧
    (saveToHistory s nodes edges).history.length = s.historyIndex + 2 ∧
    (∀ k, k ≤ s.historyIndex → (saveToHistory s nodes edges).history[k]? = s.history[k]?) ∧
    (saveToHistory s nodes edges).history[s.historyIndex + 1]? = some ⟨nodes, edges⟩ := by
  obtain ⟨h1, h2⟩ := saveToHistory_below s nodes edges (by omega) (by omega)
  have hlen : (s.history.take (s.historyIndex + 1)).length = s.historyIndex + 1 := by
    simp [List.length_take]; omega
  refine ⟨h1, h2, by rw [h1]; simp [hlen], ?_, ?_⟩
  · intro k hk
    rw [h1, List.getElem?_append_left (by omega), List.getElem?_take_of_lt (by omega)]
  · rw [h1, List.getElem?_append_right (by omega), hlen]
    simp

set_option maxRecDepth 100000 in
/-- C3 at a concrete log: three states recorded, two undone, one recorded. -/
theorem saveToHistory_discards_branch_witness :
    afterTwoUndos.history.length ≤ 50 ∧
    afterTwoUndos.historyIndex + 1 < afterTwoUndos.history.length ∧
    (saveToHistory afterTwoUndos [] []).history.length = afterTwoUndos.historyIndex + 2 :=
  ⟨by decide, by decide,
    (saveToHistory_discards_branch afterTwoUndos [] [] (by decide) (by decide)).2.2.1⟩

/-- Every operation of the history engine keeps the cursor inside a log of at
most fifty entries. -/
theorem stepHistory_logInv (s : FlowState) (op : HistoryOp) (h : LogInv s) :
    LogInv (stepHistory s op) := by
  obtain ⟨hi, hl⟩ := h
  cases op with
  | record nodes edges =>
    obtain ⟨h1, h2, h3, -⟩ := saveToHistory_spec s nodes edges hi hl
    show LogInv (saveToHistory s nodes edges)
    exact ⟨by omega, h2⟩
  | undo =>
    show LogInv (undo s)
    by_cases hz : s.historyIndex = 0
    · rw [undo_zero s hz]; exact ⟨hi, hl⟩
    · obtain ⟨prev, -, hu⟩ := undo_pos s (by omega) hi
      rw [hu]; exact ⟨by show s.historyIndex - 1 < s.history.length; omega, hl⟩
  | redo =>
    show LogInv (redo s)
    by_cases hz : s.history.length ≤ s.historyIndex + 1
    · rw [redo_last s hz]; exact ⟨hi, hl⟩
    · obtain ⟨next, -, hu⟩ := redo_pos s (by omega)
      rw [hu]; exact ⟨by show s.historyIndex + 1 < s.history.length; omega, hl⟩

theorem runHistory_logInv (ops : List HistoryOp) (s : FlowState) (h : LogInv s) :
    LogInv (runHistory s ops) := by
  induction ops generalizing s with
  | nil => exact h
  | cons op rest ih => exact ih (stepHistory s op) (stepHistory_logInv s op h)

theorem initialState_logInv (blocks : List BlockDef) : LogInv (initialState blocks) :=
  ⟨by simp [initialState], by simp [initialState]⟩

/-- C4: after any sequence of `record`, `undo` and `redo` operations from the
initial state the log holds at least one and at most fifty snapshots. -/
theorem history_length_bounded (blocks : List BlockDef) (ops : List HistoryOp) :
    1 ≤ (runHistory (initialState blocks) ops).history.length ∧
    (runHistory (initialState blocks) ops).history.length ≤ 50 := by
  obtain ⟨hi, hl⟩ := runHistory_logInv ops (initialState blocks) (initialState_logInv blocks)
  exact ⟨by omega, hl⟩

/-- C5: eviction at capacity.  On a log of fifty snapshots with the cursor on
the last one, `saveToHistory` yields fifty snapshots, the old snapshots 2..50
in their order followed by the new one, and the cursor stays at 49, where the
snapshot just recorded is. -/
theorem saveToHistory_at_capacity (s : FlowState) (nodes : List Node) (edges : List Edge)
    (hl : s.history.length = 50) (hc : s.historyIndex = 49) :
    (saveToHistory s nodes edges).history
      = s.history.drop 1 ++ [(⟨nodes, edges⟩ : Snapshot)] ∧
    (saveToHistory s nodes edges).history.length = 50 ∧
    (saveToHistory s nodes edges).historyIndex = 49 ∧
    (saveToHistory s nodes edges).history[(saveToHistory s nodes edges).historyIndex]?
      = some ⟨nodes, edges⟩ := by
  obtain ⟨h1, h2⟩ := saveToHistory_full s nodes edges (by omega) (by omega)
  obtain ⟨-, -, -, h6⟩ := saveToHistory_spec s nodes edges (by omega) (by omega)
  have htake : s.history.take (s.historyIndex + 1) = s.history := by
    have h50 : s.historyIndex + 1 = s.history.length := by omega
    rw [h50]; exact List.take_length _
  have hdrop : (s.history ++ [(⟨nodes, edges⟩ : Snapshot)]).drop 1
      = s.history.drop 1 ++ [(⟨nodes, edges⟩ : Snapshot)] :=
    List.drop_append_of_le_length (by omega)
  rw [htake, hdrop] at h1
  refine ⟨h1, by rw [h1]; simp [hl], by rw [h2, hc], h6⟩

set_option maxRecDepth 1000000 in
/-- C5 at a concrete log: the one reached by forty-nine `record` calls. -/
theorem saveToHistory_at_capacity_witness :
    fullLog.history.length = 50 ∧ fullLog.historyIndex = 49 ∧
    (saveToHistory fullLog [] []).historyIndex = 49 :=
  ⟨by decide, by decide, (saveToHistory_at_capacity fullLog [] [] (by decide) (by decide)).2.2.1⟩

/-! ## The outcomes of the callbacks -/

/-- The callback `onConnect` either rejects, changing only the message and the
connecting indicator, or passes with no edge ending at the target. -/
theorem onConnect_cases (s : FlowState) (params : Connection) :
    (∃ msg, onConnect s params = rejected s msg) ∨
    ((∀ e ∈ s.edges, e.target ≠ params.target) ∧ onConnect s params = connected s params) := by
  cases ha : resolve s.nodes params.source with
  | none => exact Or.inl ⟨_, onConnect_notFound s params (Or.inl ha)⟩
  | some a =>
    cases hb : resolve s.nodes params.target with
    | none => exact Or.inl ⟨_, onConnect_notFound s params (Or.inr hb)⟩
    | some b =>
      by_cases hta : a.data.type = "blockA"
      · by_cases htb : b.data.type = "blockB"
        · by_cases hdup : ∃ e ∈ s.edges, e.source = params.source ∧ e.target = params.target
          · exact Or.inl ⟨_, onConnect_duplicate s params a b ha hb hta htb hdup⟩
          · by_cases htgt : ∃ e ∈ s.edges, e.target = params.target
            · exact Or.inl ⟨_, onConnect_targetTaken s params a b ha hb hta htb hdup htgt⟩
            · exact Or.inr ⟨fun e he h => htgt ⟨e, he, h⟩,
                onConnect_pass s params a b ha hb hta htb htgt⟩
        · exact Or.inl ⟨_, onConnect_wrongTarget s params a b ha hb hta htb⟩
      · exact Or.inl ⟨_, onConnect_wrongSource s params a b ha hb hta⟩

/-- The callback `onDrop` either refuses, changing only the error message, or
adds the node built from a catalogue entry of the dragged type. -/
theorem onDrop_cases (s : FlowState) (event : DropEvent) :
    (∃ msg, onDrop s event = { s with errorMessage := msg }) ∨
    (∃ blockData ∈ s.blocksData, blockData.type = event.type ∧
      onDrop s event = dropped s blockData event.position) := by
  unfold onDrop
  by_cases hw : event.wrapperReady = true
  · by_cases ht : event.type = ""
    · left; exact ⟨"Invalid drag operation: no block type specified", by simp [hw, ht]⟩
    · cases hb : s.blocksData.find? fun block => block.type == event.type with
      | none => left; exact ⟨"Invalid block type: " ++ event.type, by simp only [hb]; simp [hw, ht]⟩
      | some blockData =>
        by_cases hp : event.position.x < 0 ∨ event.position.y < 0
        · left; refine ⟨"Invalid drop position", ?_⟩
          simp only [hb]
          simp [hw, ht, hp]
        · right
          refine ⟨blockData, List.mem_of_find?_eq_some hb, ?_, ?_⟩
          · have := List.find?_some hb
            simpa using this
          · simp only [hb]
            simp [hw, ht, hp, getId, dropped, droppedNode]
  · left; exact ⟨"Canvas not ready for drop operation", by simp [hw]⟩

/-! ## C6, C7, C8: the log follows the live graph -/

/-- Recording the live graph establishes the steady-state invariant. -/
theorem saveToHistory_appInv (s : FlowState) (h : LogInv s) :
    AppInv (saveToHistory s s.nodes s.edges) := by
  obtain ⟨h1, h2, -, h4⟩ := saveToHistory_spec s s.nodes s.edges h.1 h.2
  refine ⟨⟨by omega, h2⟩, ?_⟩
  unfold Synced live
  rw [h4, saveToHistory_nodes, saveToHistory_edges]

theorem undo_appInv (s : FlowState) (h : AppInv s) : AppInv (undo s) := by
  obtain ⟨⟨hi, hl⟩, hs⟩ := h
  by_cases hz : s.historyIndex = 0
  · rw [undo_zero s hz]; exact ⟨⟨hi, hl⟩, hs⟩
  · obtain ⟨prev, hp, hu⟩ := undo_pos s (by omega) hi
    rw [hu]
    exact ⟨⟨by show s.historyIndex - 1 < s.history.length; omega, hl⟩, hp⟩

theorem redo_appInv (s : FlowState) (h : AppInv s) : AppInv (redo s) := by
  obtain ⟨⟨hi, hl⟩, hs⟩ := h
  by_cases hz : s.history.length ≤ s.historyIndex + 1
  · rw [redo_last s hz]; exact ⟨⟨hi, hl⟩, hs⟩
  · obtain ⟨next, hp, hu⟩ := redo_pos s (by omega)
    rw [hu]
    exact ⟨⟨by show s.historyIndex + 1 < s.history.length; omega, hl⟩, hp⟩

theorem onConnect_appInv (s : FlowState) (params : Connection) (h : AppInv s) :
    AppInv (onConnect s params) := by
  rcases onConnect_cases s params with ⟨msg, hr⟩ | ⟨-, hc⟩
  · rw [hr]; exact h
  · rw [hc]
    exact saveToHistory_appInv
      { s with isConnecting := false, connectionStatus := "",
               edges := addEdge (newEdge params) s.edges } h.1

theorem onDrop_appInv (s : FlowState) (event : DropEvent) (h : AppInv s) :
    AppInv (onDrop s event) := by
  rcases onDrop_cases s event with ⟨msg, hr⟩ | ⟨blockData, -, -, hd⟩
  · rw [hr]; exact h
  · rw [hd]
    exact saveToHistory_appInv
      { s with nodeIdRef := s.nodeIdRef + 1,
               nodes := s.nodes ++ [droppedNode s.nodeIdRef blockData event.position] } h.1

theorem clearCanvas_appInv (s : FlowState) (h : AppInv s) : AppInv (clearCanvas s) :=
  saveToHistory_appInv { s with nodes := [], edges := [] } h.1

/-- Every user operation keeps the steady-state invariant. -/
theorem step_appInv (s : FlowState) (a : Action) (h : AppInv s) : AppInv (step s a) := by
  cases a with
  | drop event => exact onDrop_appInv s event h
  | connect params => exact onConnect_appInv s params h
  | clear => exact clearCanvas_appInv s h
  | undo => exact undo_appInv s h
  | redo => exact redo_appInv s h

theorem run_appInv (actions : List Action) (s : FlowState) (h : AppInv s) :
    AppInv (run s actions) := by
  induction actions generalizing s with
  | nil => exact h
  | cons a rest ih => exact ih (step s a) (step_appInv s a h)

theorem initialState_appInv (blocks : List BlockDef) : AppInv (initialState blocks) :=
  ⟨initialState_logInv blocks, rfl⟩

/-- C6: after any sequence of drop, connect, clear, undo and redo from the
initial state the cursor is inside the log (`0 ≤ cursor` holds for a natural
number) and the snapshot under the cursor has the nodes and the edges of the
live graph. -/
theorem history_tracks_live (blocks : List BlockDef) (actions : List Action) :
    (run (initialState blocks) actions).historyIndex
      < (run (initialState blocks) actions).history.length ∧
    ∃ snap,
      (run (initialState blocks) actions).history[(run (initialState blocks) actions).historyIndex]?
        = some snap ∧
      snap.nodes = (run (initialState blocks) actions).nodes ∧
      snap.edges = (run (initialState blocks) actions).edges := by
  obtain ⟨⟨hi, -⟩, hs⟩ := run_appInv actions (initialState blocks) (initialState_appInv blocks)
  exact ⟨hi, _, hs, rfl, rfl⟩

/-- C7: in every reachable state, with the cursor past zero `undo` moves the
cursor one entry back and loads the nodes and edges of the snapshot there (the
snapshot exists, so the 'Invalid history state' branch is not taken); with the
cursor at zero it reports 'Nothing to undo' and changes nothing else.  Either
way the stored snapshots are unchanged. -/
theorem undo_contract (blocks : List BlockDef) (actions : List Action) :
    (0 < (run (initialState blocks) actions).historyIndex →
      ∃ prev,
        (run (initialState blocks) actions).history[
          (run (initialState blocks) actions).historyIndex - 1]? = some prev ∧
        undo (run (initialState blocks) actions)
          = { run (initialState blocks) actions with
              nodes := prev.nodes, edges := prev.edges,
              historyIndex := (run (initialState blocks) actions).historyIndex - 1,
              successMessage := "Undo successful" }) ∧
    ((run (initialState blocks) actions).historyIndex = 0 →
      undo (run (initialState blocks) actions)
        = { run (initialState blocks) actions with errorMessage := "Nothing to undo" }) ∧
    (undo (run (initialState blocks) actions)).history
      = (run (initialState blocks) actions).history := by
  obtain ⟨⟨hi, -⟩, -⟩ := run_appInv actions (initialState blocks) (initialState_appInv blocks)
  exact ⟨fun h0 => undo_pos _ h0 hi, undo_zero _, undo_history _⟩

/-- C8: in every reachable state, with the cursor before the last index `redo`
moves the cursor one entry forward and loads the nodes and edges of the
snapshot there; otherwise it reports 'Nothing to redo' and changes nothing
else.  Either way the stored snapshots are unchanged. -/
theorem redo_contract (blocks : List BlockDef) (actions : List Action) :
    ((run (initialState blocks) actions).historyIndex + 1
        < (run (initialState blocks) actions).history.length →
      ∃ next,
        (run (initialState blocks) actions).history[
          (run (initialState blocks) actions).historyIndex + 1]? = some next ∧
        redo (run (initialState blocks) actions)
          = { run (initialState blocks) actions with
              nodes := next.nodes, edges := next.edges,
              historyIndex := (run (initialState blocks) actions).historyIndex + 1,
              successMessage := "Redo successful" }) ∧
    (¬ (run (initialState blocks) actions).historyIndex + 1
        < (run (initialState blocks) actions).history.length →
      redo (run (initialState blocks) actions)
        = { run (initialState blocks) actions with errorMessage := "Nothing to redo" }) ∧
    (redo (run (initialState blocks) actions)).history
      = (run (initialState blocks) actions).history := by
  exact ⟨fun h => redo_pos _ h, fun h => redo_last _ (by omega), redo_history _⟩

/-- C7 at a concrete state: after one clear the cursor is at 1 and `undo`
goes back to the initial snapshot. -/
theorem undo_contract_witness :
    0 < (run (initialState []) [Action.clear]).historyIndex ∧
    ∃ prev,
      (run (initialState []) [Action.clear]).history[
        (run (initialState []) [Action.clear]).historyIndex - 1]? = some prev ∧
      undo (run (initialState []) [Action.clear])
        = { run (initialState []) [Action.clear] with
            nodes := prev.nodes, edges := prev.edges,
            historyIndex := (run (initialState []) [Action.clear]).historyIndex - 1,
            successMessage := "Undo successful" } :=
  ⟨by decide, (undo_contract [] [Action.clear]).1 (by decide)⟩

/-- C8 at a concrete state: after one clear and one undo the cursor is at 0 of
two entries and `redo` goes forward. -/
theorem redo_contract_witness :
    (run (initialState []) [Action.clear, Action.undo]).historyIndex + 1
      < (run (initialState []) [Action.clear, Action.undo]).history.length ∧
    ∃ next,
      (run (initialState []) [Action.clear, Action.undo]).history[
        (run (initialState []) [Action.clear, Action.undo]).historyIndex + 1]? = some next ∧
      redo (run (initialState []) [Action.clear, Action.undo])
        = { run (initialState []) [Action.clear, Action.undo] with
            nodes := next.nodes, edges := next.edges,
            historyIndex := (run (initialState []) [Action.clear, Action.undo]).historyIndex + 1,
            successMessage := "Redo successful" } :=
  ⟨by decide, (redo_contract [] [Action.clear, Action.undo]).1 (by decide)⟩

/-! ## C9: no fan-in -/

/-- Every entry of the log after `saveToHistory` is an old entry or the
recorded state. -/
theorem saveToHistory_mem (s : FlowState) (n : List Node) (e : List Edge) (snap : Snapshot)
    (h : snap ∈ (saveToHistory s n e).history) :
    snap ∈ s.history ∨ snap = ⟨n, e⟩ := by
  have key : ∀ x, x ∈ s.history.take (s.historyIndex + 1) ++ [(⟨n, e⟩ : Snapshot)] →
      x ∈ s.history ∨ x = ⟨n, e⟩ := by
    intro x hx
    rcases List.mem_append.mp hx with hx | hx
    · exact Or.inl (List.mem_of_mem_take hx)
    · exact Or.inr (List.mem_singleton.mp hx)
  unfold saveToHistory at h
  simp only [] at h
  split at h
  · exact key snap (List.mem_of_mem_drop h)
  · exact key snap h

/-- The library's `addEdge` keeps the list free of fan-in when no edge ends
at the target of the new edge. -/
theorem addEdge_noFanIn (params : Connection) (edges : List Edge) (h : NoFanIn edges)
    (ht : ∀ e ∈ edges, e.target ≠ params.target) :
    NoFanIn (addEdge (newEdge params) edges) := by
  unfold addEdge
  split
  · exact h
  · split
    · exact h
    · unfold NoFanIn
      rw [List.pairwise_append]
      refine ⟨h, List.pairwise_singleton _ _, ?_⟩
      intro a ha b hb
      rw [List.mem_singleton.mp hb]
      exact ht a ha

/-- Recording a graph free of fan-in keeps every snapshot free of fan-in. -/
theorem saveToHistory_fanInv (s : FlowState) (h : ∀ snap ∈ s.history, NoFanIn snap.edges)
    (hl : NoFanIn s.edges) : FanInv (saveToHistory s s.nodes s.edges) := by
  refine ⟨by rw [saveToHistory_edges]; exact hl, ?_⟩
  intro snap hs
  rcases saveToHistory_mem s s.nodes s.edges snap hs with hm | hm
  · exact h snap hm
  · rw [hm]; exact hl

theorem undo_fanInv (s : FlowState) (h : FanInv s) : FanInv (undo s) := by
  unfold undo
  split
  · simp only []
    split
    · rename_i prev hp
      exact ⟨h.2 prev (List.getElem?_mem hp), h.2⟩
    · exact h
  · exact h

theorem redo_fanInv (s : FlowState) (h : FanInv s) : FanInv (redo s) := by
  unfold redo
  split
  · simp only []
    split
    · rename_i next hp
      exact ⟨h.2 next (List.getElem?_mem hp), h.2⟩
    · exact h
  · exact h

/-- Every user operation keeps the graph and the log free of fan-in. -/
theorem step_fanInv (s : FlowState) (a : Action) (h : FanInv s) : FanInv (step s a) := by
  cases a with
  | drop event =>
    show FanInv (onDrop s event)
    rcases onDrop_cases s event with ⟨msg, hr⟩ | ⟨blockData, -, -, hd⟩
    · rw [hr]; exact h
    · rw [hd]
      exact saveToHistory_fanInv
        { s with nodeIdRef := s.nodeIdRef + 1,
                 nodes := s.nodes ++ [droppedNode s.nodeIdRef blockData event.position] }
        h.2 h.1
  | connect params =>
    show FanInv (onConnect s params)
    rcases onConnect_cases s params with ⟨msg, hr⟩ | ⟨ht, hc⟩
    · rw [hr]; exact h
    · rw [hc]
      exact saveToHistory_fanInv
        { s with isConnecting := false, connectionStatus := "",
                 edges := addEdge (newEdge params) s.edges }
        h.2 (addEdge_noFanIn params s.edges h.1 ht)
  | clear =>
    exact saveToHistory_fanInv { s with nodes := [], edges := [] } h.2 List.Pairwise.nil
  | undo => exact undo_fanInv s h
  | redo => exact redo_fanInv s h

theorem run_fanInv (actions : List Action) (s : FlowState) (h : FanInv s) :
    FanInv (run s actions) := by
  induction actions generalizing s with
  | nil => exact h
  | cons a rest ih => exact ih (step s a) (step_fanInv s a h)

/-- In a list free of fan-in two distinct edges have distinct targets. -/
theorem noFanIn_distinct (edges : List Edge) (h : NoFanIn edges) :
    ∀ e₁ ∈ edges, ∀ e₂ ∈ edges, e₁ ≠ e₂ → e₁.target ≠ e₂.target :=
  List.Pairwise.forall (fun _ _ hxy => Ne.symm hxy) h

/-- C9: after any sequence of drop, connect, clear, undo and redo from the
empty initial state, no two distinct edges of the live graph have the same
target, and the same holds in every stored snapshot: each target block has at
most one incoming connection (stated on pairs of distinct edges and, more
strongly, on pairs of positions of the edge list). -/
theorem no_fan_in (blocks : List BlockDef) (actions : List Action) :
    (∀ e₁ ∈ (run (initialState blocks) actions).edges,
      ∀ e₂ ∈ (run (initialState blocks) actions).edges,
      e₁ ≠ e₂ → e₁.target ≠ e₂.target) ∧
    (∀ snap ∈ (run (initialState blocks) actions).history,
      ∀ e₁ ∈ snap.edges, ∀ e₂ ∈ snap.edges, e₁ ≠ e₂ → e₁.target ≠ e₂.target) ∧
    NoFanIn (run (initialState blocks) actions).edges ∧
    (∀ snap ∈ (run (initialState blocks) actions).history, NoFanIn snap.edges) := by
  have hinit : FanInv (initialState blocks) := by
    refine ⟨List.Pairwise.nil, ?_⟩
    intro snap hs
    simp only [initialState, List.mem_singleton] at hs
    rw [hs]; exact List.Pairwise.nil
  obtain ⟨h1, h2⟩ := run_fanInv actions (initialState blocks) hinit
  exact ⟨noFanIn_distinct _ h1, fun snap hs => noFanIn_distinct _ (h2 snap hs), h1, h2⟩

/-! ## C10: fan-in rejected, fan-out accepted -/

theorem accepted_nodes (s : FlowState) (params : Connection) :
    (accepted s params).nodes = s.nodes := by
  simp [accepted, saveToHistory_nodes]

theorem accepted_edges (s : FlowState) (params : Connection) :
    (accepted s params).edges = s.edges ++ [newEdge params] := by
  simp [accepted, saveToHistory_edges]

/-- A connection with non-empty ids that passes the five rules is accepted:
the edge is appended and recorded. -/
theorem onConnect_accepted (s : FlowState) (params : Connection) (hp : Passes s params)
    (hs : params.source ≠ "") (ht : params.target ≠ "") :
    onConnect s params = accepted s params := by
  obtain ⟨⟨a, ha, hta⟩, ⟨b, hb, htb⟩, hdup, htgt⟩ := hp
  rw [onConnect_pass s params a b ha hb hta htb (fun ⟨e, he, h⟩ => htgt e he h)]
  unfold connected
  rw [addEdge_append params s.edges hs ht hdup]
  rfl

/-- C10: on a graph where `connect(s, t)` is accepted (ids non-empty, as all
ids made by `getId` are), afterwards (a) `connect(s2, t)` from any other
existing `blockA` node `s2 ≠ s` is rejected with 'Block B can only have one
input connection', while (b) `connect(s, t2)` to any existing `blockB` node
`t2 ≠ t` without incoming edge is accepted and its edge appended, however
many edges already leave `s`. -/
theorem fan_in_rejected_fan_out_accepted (s : FlowState) (params : Connection)
    (hp : Passes s params) (hs : params.source ≠ "") (ht : params.target ≠ "") :
    (∀ p2 : Connection, p2.target = params.target → p2.source ≠ params.source →
      (∃ a2, resolve s.nodes p2.source = some a2 ∧ a2.data.type = "blockA") →
      onConnect (onConnect s params) p2
        = rejected (onConnect s params) "Block B can only have one input connection" ∧
      (onConnect (onConnect s params) p2).edges = s.edges ++ [newEdge params]) ∧
    (∀ p2 : Connection, p2.source = params.source → p2.target ≠ params.target →
      p2.target ≠ "" →
      (∃ b2, resolve s.nodes p2.target = some b2 ∧ b2.data.type = "blockB") →
      (∀ e ∈ s.edges, e.target ≠ p2.target) →
      onConnect (onConnect s params) p2 = accepted (onConnect s params) p2 ∧
      (onConnect (onConnect s params) p2).edges
        = s.edges ++ [newEdge params] ++ [newEdge p2]) := by
  have hacc := onConnect_accepted s params hp hs ht
  obtain ⟨⟨a, ha, hta⟩, ⟨b, hb, htb⟩, hdup, htgt⟩ := hp
  have hn : (onConnect s params).nodes = s.nodes := by rw [hacc, accepted_nodes]
  have he : (onConnect s params).edges = s.edges ++ [newEdge params] := by
    rw [hacc, accepted_edges]
  constructor
  · intro p2 hpt hps ⟨a2, ha2, hta2⟩
    have hrej := onConnect_targetTaken (onConnect s params) p2 a2 b
      (by rw [hn]; exact ha2) (by rw [hn, hpt]; exact hb) hta2 htb
      (by
        rintro ⟨e, hmem, h1, h2⟩
        rw [he] at hmem
        rcases List.mem_append.mp hmem with hm | hm
        · exact htgt e hm (by rw [h2, hpt])
        · rw [List.mem_singleton.mp hm] at h1
          exact hps h1.symm)
      ⟨newEdge params, by rw [he]; simp, by rw [hpt]; rfl⟩
    refine ⟨hrej, ?_⟩
    rw [hrej]; exact he
  · intro p2 hps hpt hne ⟨b2, hb2, htb2⟩ hfree
    have hp2 : Passes (onConnect s params) p2 := by
      refine ⟨⟨a, by rw [hn, hps]; exact ha, hta⟩, ⟨b2, by rw [hn]; exact hb2, htb2⟩, ?_, ?_⟩
      · intro e hmem h
        rw [he] at hmem
        rcases List.mem_append.mp hmem with hm | hm
        · exact hfree e hm h.2
        · rw [List.mem_singleton.mp hm] at h
          exact hpt h.2.symm
      · intro e hmem h
        rw [he] at hmem
        rcases List.mem_append.mp hmem with hm | hm
        · exact hfree e hm h
        · rw [List.mem_singleton.mp hm] at h
          exact hpt h.symm
    have hacc2 := onConnect_accepted (onConnect s params) p2 hp2 (by rw [hps]; exact hs) hne
    refine ⟨hacc2, ?_⟩
    rw [hacc2, accepted_edges, he]

/-- C10 at a concrete canvas: `dndnode_0 → dndnode_1` is accepted, then the
fan-out `dndnode_0 → dndnode_2` is accepted as well. -/
theorem fan_in_rejected_fan_out_accepted_witness :
    Passes sampleCanvas (sampleConnection 0 1) ∧
    (onConnect (onConnect sampleCanvas (sampleConnection 0 1)) (sampleConnection 0 2)).edges
      = sampleCanvas.edges ++ [newEdge (sampleConnection 0 1)]
          ++ [newEdge (sampleConnection 0 2)] :=
  have hp : Passes sampleCanvas (sampleConnection 0 1) :=
    ⟨⟨sampleNode 0 "blockA", by decide, by decide⟩,
     ⟨sampleNode 1 "blockB", by decide, by decide⟩, by decide, by decide⟩
  ⟨hp, ((fan_in_rejected_fan_out_accepted sampleCanvas (sampleConnection 0 1) hp
      (by decide) (by decide)).2 (sampleConnection 0 2) (by decide) (by decide) (by decide)
      ⟨sampleNode 2 "blockB", by decide, by decide⟩ (by decide)).2⟩

/-! ## Node ids are never empty -/

/-- An id made by `getId` is not the empty string. -/
theorem droppedNode_id_ne (k : Nat) (blockData : BlockDef) (position : Position) :
    (droppedNode k blockData position).id ≠ "" := by
  intro h
  have h2 := congrArg String.length h
  simp only [droppedNode] at h2
  rw [String.length_append] at h2
  have h3 : "dndnode_".length = 8 := by decide
  have h4 : "".length = 0 := by decide
  omega

theorem saveToHistory_idInv (s : FlowState) (h : IdInv s) :
    IdInv (saveToHistory s s.nodes s.edges) := by
  refine ⟨by rw [saveToHistory_nodes]; exact h.1, ?_⟩
  intro snap hs
  rcases saveToHistory_mem s s.nodes s.edges snap hs with hm | hm
  · exact h.2 snap hm
  · rw [hm]; exact h.1

theorem undo_idInv (s : FlowState) (h : IdInv s) : IdInv (undo s) := by
  unfold undo
  split
  · simp only []
    split
    · rename_i prev hp
      exact ⟨h.2 prev (List.getElem?_mem hp), h.2⟩
    · exact h
  · exact h

theorem redo_idInv (s : FlowState) (h : IdInv s) : IdInv (redo s) := by
  unfold redo
  split
  · simp only []
    split
    · rename_i next hp
      exact ⟨h.2 next (List.getElem?_mem hp), h.2⟩
    · exact h
  · exact h

theorem step_idInv (s : FlowState) (a : Action) (h : IdInv s) : IdInv (step s a) := by
  cases a with
  | drop event =>
    show IdInv (onDrop s event)
    rcases onDrop_cases s event with ⟨msg, hr⟩ | ⟨blockData, -, -, hd⟩
    · rw [hr]; exact h
    · rw [hd]
      refine saveToHistory_idInv
        { s with nodeIdRef := s.nodeIdRef + 1,
                 nodes := s.nodes ++ [droppedNode s.nodeIdRef blockData event.position] }
        ⟨?_, h.2⟩
      intro n hn
      rcases List.mem_append.mp hn with hm | hm
      · exact h.1 n hm
      · rw [List.mem_singleton.mp hm]; exact droppedNode_id_ne _ _ _
  | connect params =>
    show IdInv (onConnect s params)
    rcases onConnect_cases s params with ⟨msg, hr⟩ | ⟨-, hc⟩
    · rw [hr]; exact h
    · rw [hc]
      exact saveToHistory_idInv
        { s with isConnecting := false, connectionStatus := "",
                 edges := addEdge (newEdge params) s.edges } h
  | clear =>
    refine saveToHistory_idInv { s with nodes := [], edges := [] } ⟨?_, h.2⟩
    intro n hn; cases hn
  | undo => exact undo_idInv s h
  | redo => exact redo_idInv s h

theorem run_idInv (actions : List Action) (s : FlowState) (h : IdInv s) :
    IdInv (run s actions) := by
  induction actions generalizing s with
  | nil => exact h
  | cons a rest ih => exact ih (step s a) (step_idInv s a h)

/-- After any sequence of user operations from the initial state, an id that
resolves to a node is not the empty string: the hypothesis on ids in C2 and
C10 holds for every connection between nodes of a reachable canvas. -/
theorem resolved_id_nonempty (blocks : List BlockDef) (actions : List Action)
    (id : String) (n : Node)
    (h : resolve (run (initialState blocks) actions).nodes id = some n) : id ≠ "" := by
  have hinit : IdInv (initialState blocks) := by
    refine ⟨fun n hn => (by cases hn), ?_⟩
    intro snap hs
    simp only [initialState, List.mem_singleton] at hs
    rw [hs]; intro n hn; cases hn
  obtain ⟨h1, -⟩ := run_idInv actions (initialState blocks) hinit
  unfold resolve at h
  have hmem := List.mem_of_find?_eq_some h
  have hid := List.find?_some h
  simp only [beq_iff_eq] at hid
  rw [← hid]
  exact h1 n hmem

/-! ## C11: a duplicate connection -/

theorem rejected_edges (s : FlowState) (msg : String) : (rejected s msg).edges = s.edges := rfl

/-- C11: on a graph where `connect(s, t)` is accepted (ids non-empty, as all
ids made by `getId` are), a second `connect(s, t)` on the resulting graph is
rejected with 'Connection already exists between these blocks', not with the
target-already-connected message, and the edge list is the one the first
connection left. -/
theorem duplicate_connection_rejected (s : FlowState) (params : Connection)
    (hp : Passes s params) (hs : params.source ≠ "") (ht : params.target ≠ "") :
    ∀ p2 : Connection, p2.source = params.source → p2.target = params.target →
      onConnect (onConnect s params) p2
        = rejected (onConnect s params) "Connection already exists between these blocks" ∧
      (onConnect (onConnect s params) p2).errorMessage
        ≠ "Block B can only have one input connection" ∧
      (onConnect (onConnect s params) p2).edges = (onConnect s params).edges ∧
      (onConnect (onConnect s params) p2).edges = s.edges ++ [newEdge params] := by
  intro p2 hps hpt
  have hacc := onConnect_accepted s params hp hs ht
  obtain ⟨⟨a, ha, hta⟩, ⟨b, hb, htb⟩, -, -⟩ := hp
  have hn : (onConnect s params).nodes = s.nodes := by rw [hacc, accepted_nodes]
  have he : (onConnect s params).edges = s.edges ++ [newEdge params] := by
    rw [hacc, accepted_edges]
  have hrej := onConnect_duplicate (onConnect s params) p2 a b
    (by rw [hn, hps]; exact ha) (by rw [hn, hpt]; exact hb) hta htb
    ⟨newEdge params, by rw [he]; simp, by rw [hps]; rfl, by rw [hpt]; rfl⟩
  refine ⟨hrej, ?_, ?_, ?_⟩
  · rw [hrej]; simp only [rejected]; decide
  · rw [hrej]; rfl
  · rw [hrej]; exact he

/-- C11 at a concrete canvas: `dndnode_0 → dndnode_1` twice. -/
theorem duplicate_connection_rejected_witness :
    Passes sampleCanvas (sampleConnection 0 1) ∧
    onConnect (onConnect sampleCanvas (sampleConnection 0 1)) (sampleConnection 0 1)
      = rejected (onConnect sampleCanvas (sampleConnection 0 1))
          "Connection already exists between these blocks" :=
  have hp : Passes sampleCanvas (sampleConnection 0 1) :=
    ⟨⟨sampleNode 0 "blockA", by decide, by decide⟩,
     ⟨sampleNode 1 "blockB", by decide, by decide⟩, by decide, by decide⟩
  ⟨hp, (duplicate_connection_rejected sampleCanvas (sampleConnection 0 1) hp
      (by decide) (by decide) (sampleConnection 0 1) rfl rfl).1⟩

/-! ## C13: a rejected connection changes nothing but the message -/

/-- A connection that passes the five rules takes the passing branch. -/
theorem onConnect_of_passes (s : FlowState) (params : Connection) (hp : Passes s params) :
    onConnect s params = connected s params := by
  obtain ⟨⟨a, ha, hta⟩, ⟨b, hb, htb⟩, -, htgt⟩ := hp
  exact onConnect_pass s params a b ha hb hta htb (fun ⟨e, he, h⟩ => htgt e he h)

/-- A connection that fails one of the five rules is rejected with the
message of the first rule it fails. -/
theorem onConnect_of_not_passes (s : FlowState) (params : Connection)
    (hp : ¬ Passes s params) :
    ∃ msg ∈ rejectionMessages, onConnect s params = rejected s msg := by
  cases ha : resolve s.nodes params.source with
  | none =>
    exact ⟨_, by simp [rejectionMessages], onConnect_notFound s params (Or.inl ha)⟩
  | some a =>
    cases hb : resolve s.nodes params.target with
    | none =>
      exact ⟨_, by simp [rejectionMessages], onConnect_notFound s params (Or.inr hb)⟩
    | some b =>
      by_cases hta : a.data.type = "blockA"
      · by_cases htb : b.data.type = "blockB"
        · by_cases hdup : ∃ e ∈ s.edges, e.source = params.source ∧ e.target = params.target
          · exact ⟨_, by simp [rejectionMessages],
              onConnect_duplicate s params a b ha hb hta htb hdup⟩
          · by_cases htgt : ∃ e ∈ s.edges, e.target = params.target
            · exact ⟨_, by simp [rejectionMessages],
                onConnect_targetTaken s params a b ha hb hta htb hdup htgt⟩
            · exact absurd ⟨⟨a, ha, hta⟩, ⟨b, hb, htb⟩,
                fun e he h => hdup ⟨e, he, h⟩, fun e he h => htgt ⟨e, he, h⟩⟩ hp
        · exact ⟨_, by simp [rejectionMessages],
            onConnect_wrongTarget s params a b ha hb hta htb⟩
      · exact ⟨_, by simp [rejectionMessages],
          onConnect_wrongSource s params a b ha hb hta⟩

/-- C13: for every state and every connection that `onConnect` rejects (one of
the five rules matches), the result is the old state with only the error
message replaced by one of the five rejection messages and the connecting
indicator reset: the live nodes, the live edges, the history log and the
cursor (and the success message, the catalogue and the id counter) are those
before the call. -/
theorem rejected_connection_changes_nothing (s : FlowState) (params : Connection)
    (hp : ¬ Passes s params) :
    (∃ msg ∈ rejectionMessages,
      onConnect s params
        = { s with isConnecting := false, connectionStatus := "", errorMessage := msg }) ∧
    (onConnect s params).nodes = s.nodes ∧
    (onConnect s params).edges = s.edges ∧
    (onConnect s params).history = s.history ∧
    (onConnect s params).historyIndex = s.historyIndex ∧
    (onConnect s params).successMessage = s.successMessage ∧
    (onConnect s params).blocksData = s.blocksData ∧
    (onConnect s params).nodeIdRef = s.nodeIdRef := by
  obtain ⟨msg, hm, hr⟩ := onConnect_of_not_passes s params hp
  refine ⟨⟨msg, hm, hr⟩, ?_, ?_, ?_, ?_, ?_, ?_, ?_⟩ <;> rw [hr] <;> rfl

/-- C13 at a concrete canvas: `dndnode_1 → dndnode_0` starts at a `blockB`
and is rejected; the edge list is untouched. -/
theorem rejected_connection_changes_nothing_witness :
    ¬ Passes sampleCanvas (sampleConnection 1 0) ∧
    (onConnect sampleCanvas (sampleConnection 1 0)).edges = sampleCanvas.edges :=
  have hp : ¬ Passes sampleCanvas (sampleConnection 1 0) := by
    rintro ⟨⟨a, ha, hta⟩, -⟩
    have hr : resolve sampleCanvas.nodes (sampleConnection 1 0).source
        = some (sampleNode 1 "blockB") := by decide
    rw [hr] at ha
    cases ha
    exact absurd hta (by decide)
  ⟨hp, (rejected_connection_changes_nothing sampleCanvas (sampleConnection 1 0) hp).2.2.1⟩

/-! ## C12: edge typing -/

/-- An id that resolves keeps resolving to the same node when a node is
appended: `find` returns the first match. -/
theorem resolve_append (nodes : List Node) (n a : Node) (id : String)
    (h : resolve nodes id = some a) : resolve (nodes ++ [n]) id = some a := by
  unfold resolve at h ⊢
  rw [List.find?_append, h]
  rfl

theorem typedEdges_append_node (nodes : List Node) (edges : List Edge) (n : Node)
    (h : TypedEdges nodes edges) : TypedEdges (nodes ++ [n]) edges := by
  intro e he
  obtain ⟨⟨a, ha, hta⟩, ⟨b, hb, htb⟩⟩ := h e he
  exact ⟨⟨a, resolve_append nodes n a _ ha, hta⟩, ⟨b, resolve_append nodes n b _ hb, htb⟩⟩

/-- Every edge of the list returned by the library's `addEdge` is an old edge
or the new one. -/
theorem addEdge_mem (edge : Edge) (edges : List Edge) (e : Edge)
    (h : e ∈ addEdge edge edges) : e ∈ edges ∨ e = edge := by
  unfold addEdge at h
  split at h
  · exact Or.inl h
  · split at h
    · exact Or.inl h
    · rcases List.mem_append.mp h with hm | hm
      · exact Or.inl hm
      · exact Or.inr (List.mem_singleton.mp hm)

theorem typedEdges_addEdge (s : FlowState) (params : Connection) (hp : Passes s params)
    (h : TypedEdges s.nodes s.edges) :
    TypedEdges s.nodes (addEdge (newEdge params) s.edges) := by
  intro e he
  rcases addEdge_mem (newEdge params) s.edges e he with hm | hm
  · exact h e hm
  · rw [hm]
    exact ⟨hp.1, hp.2.1⟩

theorem saveToHistory_typedInv (s : FlowState)
    (h : ∀ snap ∈ s.history, TypedEdges snap.nodes snap.edges)
    (hl : TypedEdges s.nodes s.edges) : TypedInv (saveToHistory s s.nodes s.edges) := by
  refine ⟨by rw [saveToHistory_nodes, saveToHistory_edges]; exact hl, ?_⟩
  intro snap hs
  rcases saveToHistory_mem s s.nodes s.edges snap hs with hm | hm
  · exact h snap hm
  · rw [hm]; exact hl

theorem undo_typedInv (s : FlowState) (h : TypedInv s) : TypedInv (undo s) := by
  unfold undo
  split
  · simp only []
    split
    · rename_i prev hp
      exact ⟨h.2 prev (List.getElem?_mem hp), h.2⟩
    · exact h
  · exact h

theorem redo_typedInv (s : FlowState) (h : TypedInv s) : TypedInv (redo s) := by
  unfold redo
  split
  · simp only []
    split
    · rename_i next hp
      exact ⟨h.2 next (List.getElem?_mem hp), h.2⟩
    · exact h
  · exact h

/-- Every user operation keeps the edges typed. -/
theorem step_typedInv (s : FlowState) (a : Action) (h : TypedInv s) :
    TypedInv (step s a) := by
  cases a with
  | drop event =>
    show TypedInv (onDrop s event)
    rcases onDrop_cases s event with ⟨msg, hr⟩ | ⟨blockData, -, -, hd⟩
    · rw [hr]; exact h
    · rw [hd]
      exact saveToHistory_typedInv
        { s with nodeIdRef := s.nodeIdRef + 1,
                 nodes := s.nodes ++ [droppedNode s.nodeIdRef blockData event.position] }
        h.2 (typedEdges_append_node s.nodes s.edges _ h.1)
  | connect params =>
    show TypedInv (onConnect s params)
    by_cases hp : Passes s params
    · rw [onConnect_of_passes s params hp]
      exact saveToHistory_typedInv
        { s with isConnecting := false, connectionStatus := "",
                 edges := addEdge (newEdge params) s.edges }
        h.2 (typedEdges_addEdge s params hp h.1)
    · obtain ⟨msg, -, hr⟩ := onConnect_of_not_passes s params hp
      rw [hr]; exact h
  | clear =>
    exact saveToHistory_typedInv { s with nodes := [], edges := [] } h.2
      (fun e he => by cases he)
  | undo => exact undo_typedInv s h
  | redo => exact redo_typedInv s h

theorem run_typedInv (actions : List Action) (s : FlowState) (h : TypedInv s) :
    TypedInv (run s actions) := by
  induction actions generalizing s with
  | nil => exact h
  | cons a rest ih => exact ih (step s a) (step_typedInv s a h)

/-- C12: after any sequence of drop, connect, clear, undo and redo from the
empty initial state, every edge of the live graph has a source id that
resolves to a live node of type `blockA` and a target id that resolves to a
live node of type `blockB`. -/
theorem edges_are_typed (blocks : List BlockDef) (actions : List Action) :
    ∀ e ∈ (run (initialState blocks) actions).edges,
      (∃ a, resolve (run (initialState blocks) actions).nodes e.source = some a ∧
        a ∈ (run (initialState blocks) actions).nodes ∧ a.data.type = "blockA") ∧
      (∃ b, resolve (run (initialState blocks) actions).nodes e.target = some b ∧
        b ∈ (run (initialState blocks) actions).nodes ∧ b.data.type = "blockB") := by
  have hinit : TypedInv (initialState blocks) := by
    refine ⟨fun e he => (by cases he), ?_⟩
    intro snap hs
    simp only [initialState, List.mem_singleton] at hs
    rw [hs]; intro e he; cases he
  obtain ⟨h1, -⟩ := run_typedInv actions (initialState blocks) hinit
  intro e he
  obtain ⟨⟨a, ha, hta⟩, ⟨b, hb, htb⟩⟩ := h1 e he
  exact ⟨⟨a, ha, List.mem_of_find?_eq_some ha, hta⟩, ⟨b, hb, List.mem_of_find?_eq_some hb, htb⟩⟩

set_option maxRecDepth 1000000 in
/-- C12 at a concrete run: after dropping a `blockA` and a `blockB` and
connecting them, the edge is in the live graph and its source resolves to a
live `blockA` node. -/
theorem edges_are_typed_witness :
    newEdge (sampleConnection 0 1) ∈ connectedPair.app.edges ∧
    ∃ a, resolve connectedPair.app.nodes (newEdge (sampleConnection 0 1)).source = some a ∧
      a ∈ connectedPair.app.nodes ∧ a.data.type = "blockA" :=
  ⟨by decide,
    (edges_are_typed sampleBlocks
      [Action.drop (sampleDrop "blockA"), Action.drop (sampleDrop "blockB"),
       Action.connect (sampleConnection 0 1)]
      (newEdge (sampleConnection 0 1)) (by decide)).1⟩

/-! ## C14: deleting a connected node -/

/-- Run from the closure of the current render, `saveToHistoryFrom` is
`saveToHistory`. -/
theorem saveToHistoryFrom_current (s : FlowState) (n : List Node) (e : List Edge) :
    saveToHistoryFrom s.history s.historyIndex s n e = saveToHistory s n e := rfl

set_option maxRecDepth 1000000 in
/-- C14 fails on the code: on the canvas `dndnode_0 → dndnode_1`, deleting
`dndnode_0` removes the node and its edge, but the edge-removal change
schedules a 100 ms timer and the node-removal change a 300 ms timer, and the
function `handleEdgesChange` returns to cancel the first timer is never
called: both timers are pending afterwards, both fire, and `saveToHistory`
runs once per change event (the new snapshot is already in the log after
100 ms and is written again at 300 ms).  Had the returned function been
called, one timer would fire. -/
theorem delete_node_records_twice :
    (handleDelete connectedPair "dndnode_0").app.nodes
      = [droppedNode 1 { id := "2", label := "Block B", type := "blockB" } { x := 0, y := 0 }] ∧
    (handleDelete connectedPair "dndnode_0").app.edges = [] ∧
    (handleEdgesChange connectedPair [EdgeChange.remove "edge-dndnode_0-dndnode_1"]).2
      = some 0 ∧
    (handleDelete connectedPair "dndnode_0").timers.map (fun t => (t.id, t.due))
      = [(0, 100), (1, 300)] ∧
    (dueTimers (handleDelete connectedPair "dndnode_0") 300).length = 2 ∧
    (advance (handleDelete connectedPair "dndnode_0") 100).app.history.length
      = connectedPair.app.history.length + 1 ∧
    (advance (handleDelete connectedPair "dndnode_0") 100).timers.map (fun t => (t.id, t.due))
      = [(1, 300)] ∧
    (advance (handleDelete connectedPair "dndnode_0") 300).app.history
      = connectedPair.app.history ++ [{ nodes := (handleDelete connectedPair "dndnode_0").app.nodes,
                                         edges := [] }] ∧
    (dueTimers (clearTimeout (handleDelete connectedPair "dndnode_0") 0) 300).length = 1 := by
  decide

set_option maxRecDepth 1000000 in
/-- The stale second timer after an `undo`: the node is deleted, the first
timer records the deletion, the user undoes it within the next 200 ms, and
the second timer then records the restored graph over the deletion snapshot.
The log ends with the graph before the deletion twice and the deletion can no
longer be redone. -/
theorem stale_timer_overwrites_log :
    (advance (act (advance (handleDelete connectedPair "dndnode_0") 100) Action.undo) 200).app.history
      = connectedPair.app.history ++ [live connectedPair.app] ∧
    (advance (act (advance (handleDelete connectedPair "dndnode_0") 100) Action.undo) 200).app.historyIndex
      = 4 ∧
    live (advance (act (advance (handleDelete connectedPair "dndnode_0") 100) Action.undo) 200).app
      = live connectedPair.app := by
  decide

end DnDFlow
